import Mathlib

/-!
Shallow embedding of the Topic Evolution & Analytics Engine of the
`osint-mcp` repository, together with theorems settling the frozen claims.

Time is modelled as seconds since an hour-aligned epoch (`Nat`), so that
`DATE_TRUNC('hour', t)` becomes `3600 * (t / 3600)` and
`EXTRACT(HOUR FROM t)` becomes `(t / 3600) % 24`.  SQL numerics are
modelled with `ℚ` (no floating point is involved in any claim's content),
table states as lists of rows, and SQL aggregation as list operations.
-/

/-- `DATE_TRUNC('hour', t)`: the timestamp truncated to its hour.
Timestamps are plain `Nat` seconds. -/
def hourBucket (t : Nat) : Nat := 3600 * (t / 3600)

/-- `EXTRACT(HOUR FROM t)`: the hour-of-day component. -/
def hourOfDay (t : Nat) : Nat := (t / 3600) % 24

/-- A row of `tweets_deduplicated` (the immutable Post record). -/
structure Tweet where
  tweet_id : String
  author_id : String
  created_at : Nat
  total_engagement : Int
  text : String
  deriving DecidableEq, Repr

/-- A row of `tweet_topics` (a TopicAssignment; `-1` is the outlier sentinel). -/
structure TweetTopic where
  tweet_id : String
  topic_id : Int
  probability : ℚ
  deriving DecidableEq, Repr

/-- The raw dataset: the two read-only input tables. -/
structure DB where
  tweets : List Tweet
  tweet_topics : List TweetTopic
  deriving Repr

/-- `FROM tweet_topics tt JOIN tweets_deduplicated t ON tt.tweet_id = t.tweet_id`. -/
def joined (db : DB) : List (TweetTopic × Tweet) :=
  db.tweet_topics.flatMap fun tt =>
    (db.tweets.filter fun t => t.tweet_id == tt.tweet_id).map fun t => (tt, t)

/-- The joined rows surviving the batch window and outlier filters of
`compute_hourly_evolution`: `tt.topic_id != -1 AND created_at >= s AND created_at < e`. -/
def wrows (db : DB) (s e : Nat) : List (TweetTopic × Tweet) :=
  (joined db).filter fun r =>
    decide (r.1.topic_id ≠ -1 ∧ s ≤ r.2.created_at ∧ r.2.created_at < e)

/-- The `GROUP BY (topic_id, DATE_TRUNC('hour', created_at))` keys of a row list. -/
def keysOf (rows : List (TweetTopic × Tweet)) : List (Int × Nat) :=
  (rows.map fun r => (r.1.topic_id, hourBucket r.2.created_at)).dedup

/-- The rows of one (topic, hour-bucket) group. -/
def rowsAt (rows : List (TweetTopic × Tweet)) (T : Int) (d : Nat) :
    List (TweetTopic × Tweet) :=
  rows.filter fun r => decide (r.1.topic_id = T ∧ hourBucket r.2.created_at = d)

/-- `COUNT(DISTINCT tt.tweet_id)` over a group's rows. -/
def cntTweets (rows : List (TweetTopic × Tweet)) : Nat :=
  ((rows.map fun r => r.1.tweet_id).dedup).length

/-- `COUNT(DISTINCT t.author_id)` over a group's rows. -/
def cntAuthors (rows : List (TweetTopic × Tweet)) : Nat :=
  ((rows.map fun r => r.2.author_id).dedup).length

/-- `AVG(tt.probability)` over a group's rows. -/
def avgProb (rows : List (TweetTopic × Tweet)) : ℚ :=
  ((rows.map fun r => r.1.probability).sum) / ((rows.map fun r => r.1.probability).length)

/-- `SUM(t.total_engagement)` over a group's rows. -/
def sumEngagement (rows : List (TweetTopic × Tweet)) : Int :=
  (rows.map fun r => r.2.total_engagement).sum

/-- `COUNT(DISTINCT CASE WHEN t.total_engagement > 1000 THEN t.tweet_id END)`. -/
def cntViral (rows : List (TweetTopic × Tweet)) : Nat :=
  (((rows.filter fun r => decide (1000 < r.2.total_engagement)).map
    fun r => r.1.tweet_id).dedup).length

/-- The group keys of a batch of `compute_hourly_evolution`. -/
def bucketKeys (db : DB) (s e : Nat) : List (Int × Nat) :=
  keysOf (wrows db s e)

/-- The joined rows of one (topic, hour-bucket) group of a batch. -/
def bucketRows (db : DB) (s e : Nat) (T : Int) (d : Nat) : List (TweetTopic × Tweet) :=
  rowsAt (wrows db s e) T d

/-- `COUNT(DISTINCT tt.tweet_id)` within a batch group. -/
def tweetCount (db : DB) (s e : Nat) (T : Int) (d : Nat) : Nat :=
  cntTweets (bucketRows db s e T d)

/-- `COUNT(DISTINCT t.author_id)` within a batch group. -/
def uniqueAuthors (db : DB) (s e : Nat) (T : Int) (d : Nat) : Nat :=
  cntAuthors (bucketRows db s e T d)

/-- `AVG(tt.probability)` within a batch group. -/
def avgProbability (db : DB) (s e : Nat) (T : Int) (d : Nat) : ℚ :=
  avgProb (bucketRows db s e T d)

/-- `SUM(t.total_engagement)` within a batch group. -/
def totalEngagement (db : DB) (s e : Nat) (T : Int) (d : Nat) : Int :=
  sumEngagement (bucketRows db s e T d)

/-- The viral-tweet count within a batch group. -/
def viralTweets (db : DB) (s e : Nat) (T : Int) (d : Nat) : Nat :=
  cntViral (bucketRows db s e T d)

/-- The `NOT EXISTS` subquery of the `new_authors` CTE: does author `a` have a
post under topic `T` strictly before time `cutoff`, anywhere in history? -/
def hasEarlierPost (db : DB) (T : Int) (a : String) (cutoff : Nat) : Bool :=
  (joined db).any fun r =>
    decide (r.1.topic_id = T ∧ r.2.author_id = a ∧ r.2.created_at < cutoff)

/-- The distinct authors counted by the `new_authors` CTE for group `(T, d)`. -/
def newAuthorsList (db : DB) (s e : Nat) (T : Int) (d : Nat) : List String :=
  (((wrows db s e).filter fun r =>
      decide (r.1.topic_id = T ∧ hourBucket r.2.created_at = d) &&
      !hasEarlierPost db T r.2.author_id d).map fun r => r.2.author_id).dedup

/-- `COALESCE(na.new_author_count, 0)`: the absent-group case yields 0, which
coincides with the empty-list count. -/
def newAuthors (db : DB) (s e : Nat) (T : Int) (d : Nat) : Nat :=
  (newAuthorsList db s e T d).length

/-- The stopword list of the `keywords` CTE. -/
def stopwords : List String :=
  ["http", "https", "that", "this", "with", "from", "have", "will", "been",
   "they", "their", "what", "when", "where"]

/-- Characters kept by `regexp_replace(lower(text), '[^a-z0-9#@\s]', '', 'g')`. -/
def isKeptChar (c : Char) : Bool :=
  decide (('a' ≤ c ∧ c ≤ 'z') ∨ ('0' ≤ c ∧ c ≤ '9') ∨ c = '#' ∨ c = '@' ∨
    c = ' ' ∨ c = '\t' ∨ c = '\n' ∨ c = '\x0d' ∨ c = '\x0b' ∨ c = '\x0c')

/-- `regexp_replace(lower(text), '[^a-z0-9#@\s]', '', 'g')`. -/
def normalizeText (s : String) : String :=
  String.mk ((s.data.map Char.toLower).filter isKeptChar)

/-- `string_to_array(s, ' ')`: split on single spaces, keeping empty fields
between consecutive separators. -/
def splitSpaces : List Char → List Char → List String
  | [], acc => [String.mk acc.reverse]
  | c :: cs, acc =>
    if c = ' ' then String.mk acc.reverse :: splitSpaces cs []
    else splitSpaces cs (c :: acc)

/-- `unnest(string_to_array(..., ' '))` followed by the word filters
`length(word) > 3 AND word NOT IN (stopwords)`. -/
def textWords (s : String) : List String :=
  (splitSpaces (normalizeText s).data []).filter fun w =>
    decide (3 < w.length ∧ w ∉ stopwords)

/-- All qualifying words of a (topic, hour-bucket) group, with multiplicity. -/
def bucketWords (db : DB) (s e : Nat) (T : Int) (d : Nat) : List String :=
  (bucketRows db s e T d).flatMap fun r => textWords r.2.text

/-- Lexicographic code-point comparison of character lists (the C collation
of `ORDER BY word`; on the ASCII output of the normalizer it agrees with
every common collation). -/
def listCharLe : List Char → List Char → Bool
  | [], _ => true
  | _ :: _, [] => false
  | a :: as, b :: bs =>
    if a.toNat < b.toNat then true
    else if b.toNat < a.toNat then false
    else listCharLe as bs

/-- Lexicographic comparison of strings. -/
def strLe (a b : String) : Bool := listCharLe a.data b.data

/-- The `strLe` order as a decidable relation. -/
def strLeR (a b : String) : Prop := strLe a b = true

instance : DecidableRel strLeR := fun a b => by unfold strLeR; infer_instance

/-- Lexicographic sort, modelling `ORDER BY word`. -/
def sortStrings (l : List String) : List String :=
  l.insertionSort strLeR

/-- `ARRAY_AGG(DISTINCT word ORDER BY word)`: the distinct qualifying words of
the group in lexicographic order. -/
def topWords (db : DB) (s e : Nat) (T : Int) (d : Nat) : List String :=
  sortStrings (bucketWords db s e T d).dedup

/-- The `top_keywords` CASE: `jsonb_build_object('keywords', top_words[:10])`
when the aggregated array is non-empty, `'{}'::jsonb` (here `none`) otherwise. -/
def topKeywords (db : DB) (s e : Nat) (T : Int) (d : Nat) : Option (List String) :=
  let ws := topWords db s e T d
  if ws = [] then none else some (ws.take 10)

/-- A row of the persisted `topic_evolution` table (EvolutionBucket). -/
structure EvoRow where
  topic_id : Int
  date : Nat
  hour : Nat
  tweet_count : Nat
  unique_authors : Nat
  new_authors : Nat
  avg_probability : ℚ
  top_keywords : Option (List String)
  total_engagement : Int
  viral_tweets : Nat
  growth_rate : ℚ
  deriving DecidableEq, Repr

/-- The `previous_hour` CTE joined at `(T, d)`: the persisted row whose
`date + interval '1 hour'` equals `d`, restricted to
`date >= s - interval '1 hour' AND date < e`; yields its `tweet_count`. -/
def prevCount (store : List EvoRow) (s e : Nat) (T : Int) (d : Nat) : Option Nat :=
  (store.find? fun r =>
    decide (r.topic_id = T ∧ r.date + 3600 = d ∧ s - 3600 ≤ r.date ∧ r.date < e)).map
    fun r => r.tweet_count

/-- The growth-rate CASE of `compute_hourly_evolution`:
`(tweet_count - prev_count) / prev_count` when the previous-hour persisted row
exists with positive count, else 0 (also when the LEFT JOIN found nothing). -/
def growthRateBatch (store : List EvoRow) (s e : Nat) (T : Int) (d : Nat) (c : Nat) : ℚ :=
  match prevCount store s e T d with
  | some p => if 0 < p then ((c : ℚ) - (p : ℚ)) / (p : ℚ) else 0
  | none => 0

/-- One output row of the batch SELECT for group `(T, d)`. -/
def mkRow (db : DB) (store : List EvoRow) (s e : Nat) (T : Int) (d : Nat) : EvoRow :=
  { topic_id := T
    date := d
    hour := hourOfDay d
    tweet_count := tweetCount db s e T d
    unique_authors := uniqueAuthors db s e T d
    new_authors := newAuthors db s e T d
    avg_probability := avgProbability db s e T d
    top_keywords := topKeywords db s e T d
    total_engagement := totalEngagement db s e T d
    viral_tweets := viralTweets db s e T d
    growth_rate := growthRateBatch store s e T d (tweetCount db s e T d) }

/-- The full result set of the batch SELECT over window `[s, e)`. -/
def computeBatch (db : DB) (store : List EvoRow) (s e : Nat) : List EvoRow :=
  (bucketKeys db s e).map fun k => mkRow db store s e k.1 k.2

/-- Key equality for the unique constraint `(topic_id, date, hour)`. -/
def sameKey (a b : EvoRow) : Bool :=
  decide (a.topic_id = b.topic_id ∧ a.date = b.date ∧ a.hour = b.hour)

/-- `INSERT ... ON CONFLICT (topic_id, date, hour) DO UPDATE SET ...`:
overwrite the conflicting row in place (the unique constraint admits at most
one), otherwise append. -/
def upsertRow : List EvoRow → EvoRow → List EvoRow
  | [], r => [r]
  | x :: xs, r => if sameKey r x then r :: xs else x :: upsertRow xs r

/-- Upsert of a whole batch result. -/
def upsertAll (store : List EvoRow) (rows : List EvoRow) : List EvoRow :=
  rows.foldl upsertRow store

/-- The day-batch loop of `compute_hourly_evolution`, with an explicit fuel
(structural recursion): each batch reads `previous_hour` from the store as
left by the previous batches and upserts its freshly computed rows. -/
def computeRangeFuel (db : DB) : Nat → List EvoRow → Nat → Nat → List EvoRow
  | 0, store, _, _ => store
  | fuel + 1, store, cur, fin =>
    if cur < fin then
      computeRangeFuel db fuel
        (upsertAll store (computeBatch db store cur (min (cur + 86400) fin)))
        (min (cur + 86400) fin) fin
    else store

/-- The number of day batches needed to process `[cur, fin)`. -/
def rangeFuel (cur fin : Nat) : Nat := (fin - cur + 86399) / 86400

/-- `compute_hourly_evolution(start, end)`: process `[cur, fin)` in day-sized
batches.  The fuel is exactly the number of batches the `while` loop runs. -/
def computeRange (db : DB) (store : List EvoRow) (cur fin : Nat) : List EvoRow :=
  computeRangeFuel db (rangeFuel cur fin) store cur fin

/-- Lookup of the persisted row at key `(T, d, h)` (the unique-constraint
key; the aggregator always writes `h = hourOfDay d`). -/
def findRow (store : List EvoRow) (T : Int) (d : Nat) (h : Nat) : Option EvoRow :=
  store.find? fun r => decide (r.topic_id = T ∧ r.date = d ∧ r.hour = h)

/-!
## Analytics Query Service (`app/repositories/topic_analytics.py`)
-/

/-- A row of `topic_definitions_refined` (RefinedTopic), restricted to the
fields the Analytics Query Service reads. -/
structure RefinedTopic where
  topic_id : Int
  refined_name : String
  category : Option String
  monitoring_priority : String
  deriving DecidableEq, Repr

/-- `refined_topics.get(tid).refined_name if tid in refined_topics else f"Topic {tid}"`. -/
def refinedName (refined : List RefinedTopic) (tid : Int) : String :=
  match refined.find? fun r => r.topic_id == tid with
  | some r => r.refined_name
  | none => "Topic " ++ toString tid

/-- Values of the key-value records the repository returns to the boundary. -/
inductive Val where
  | vInt : Int → Val
  | vNat : Nat → Val
  | vStr : String → Val
  | vRat : ℚ → Val
  | vOptStr : Option String → Val
  | vOptNat : Option Nat → Val
  | vKw : Option (List String) → Val
  deriving DecidableEq, Repr

/-- A repository record: a Python dict as an ordered key-value list. -/
abbrev Rec := List (String × Val)

/-- `rec.get(key)`. -/
def recGet (r : Rec) (k : String) : Option Val :=
  (r.find? fun p => p.1 == k).map fun p => p.2

/-- The SQL parameter `topic_ids if topic_ids else None`: an empty list is
falsy in Python and is normalized to NULL. -/
def normTids (tids : Option (List Int)) : Option (List Int) :=
  match tids with
  | some [] => none
  | x => x

/-- `(:topic_ids IS NULL OR tt.topic_id = ANY(:topic_ids))`. -/
def topicSelected (tids : Option (List Int)) (T : Int) : Bool :=
  match tids with
  | none => true
  | some l => l.contains T

/-- The joined rows of the live `hourly_stats` CTE of
`_compute_evolution_metrics`: outlier exclusion, `created_at >= cutoff`
(no upper bound) and the optional topic-id filter. -/
def lrows (db : DB) (cutoff : Nat) (tids : Option (List Int)) :
    List (TweetTopic × Tweet) :=
  (joined db).filter fun r =>
    decide (r.1.topic_id ≠ -1 ∧ cutoff ≤ r.2.created_at) && topicSelected tids r.1.topic_id

/-- The live group keys. -/
def liveKeys (db : DB) (cutoff : Nat) (tids : Option (List Int)) : List (Int × Nat) :=
  keysOf (lrows db cutoff tids)

/-- The live `tweet_count` of group `(T, d)`. -/
def liveCount (db : DB) (cutoff : Nat) (tids : Option (List Int)) (T : Int) (d : Nat) : Nat :=
  cntTweets (rowsAt (lrows db cutoff tids) T d)

/-- The dates of topic `T`'s live groups. -/
def liveDates (db : DB) (cutoff : Nat) (tids : Option (List Int)) (T : Int) : List Nat :=
  ((liveKeys db cutoff tids).filter fun k => k.1 == T).map fun k => k.2

/-- `LAG(tweet_count) OVER (PARTITION BY topic_id ORDER BY date)` evaluated at
group `(T, d)`: the count of `T`'s latest group strictly before `d`, if any. -/
def lagPrev (db : DB) (cutoff : Nat) (tids : Option (List Int)) (T : Int) (d : Nat) :
    Option Nat :=
  match ((liveDates db cutoff tids T).filter fun d' => decide (d' < d)).max? with
  | some d' => some (liveCount db cutoff tids T d')
  | none => none

/-- The live growth-rate CASE: `(tweet_count - LAG(...)) / LAG(...)` when the
lagged count is positive, else 0 (also when `LAG` is NULL). -/
def liveGrowth (db : DB) (cutoff : Nat) (tids : Option (List Int)) (T : Int) (d : Nat) : ℚ :=
  match lagPrev db cutoff tids T d with
  | some p => if 0 < p then ((liveCount db cutoff tids T d : ℚ) - (p : ℚ)) / (p : ℚ) else 0
  | none => 0

/-- One row of the live `with_growth` CTE (`SELECT *` keeps `prev_count`). -/
structure LiveRow where
  topic_id : Int
  date : Nat
  hour : Nat
  tweet_count : Nat
  unique_authors : Nat
  avg_probability : ℚ
  total_engagement : Int
  viral_tweets : Nat
  prev_count : Option Nat
  growth_rate : ℚ
  deriving DecidableEq, Repr

/-- The live row of group `(T, d)`. -/
def mkLiveRow (db : DB) (cutoff : Nat) (tids : Option (List Int)) (T : Int) (d : Nat) :
    LiveRow :=
  { topic_id := T
    date := d
    hour := hourOfDay d
    tweet_count := liveCount db cutoff tids T d
    unique_authors := cntAuthors (rowsAt (lrows db cutoff tids) T d)
    avg_probability := avgProb (rowsAt (lrows db cutoff tids) T d)
    total_engagement := sumEngagement (rowsAt (lrows db cutoff tids) T d)
    viral_tweets := cntViral (rowsAt (lrows db cutoff tids) T d)
    prev_count := lagPrev db cutoff tids T d
    growth_rate := liveGrowth db cutoff tids T d }

/-- `ORDER BY date DESC, growth_rate DESC` on live rows. -/
def liveOrder (a b : LiveRow) : Prop :=
  b.date < a.date ∨ (a.date = b.date ∧ b.growth_rate ≤ a.growth_rate)

instance : DecidableRel liveOrder := fun a b => by unfold liveOrder; infer_instance

/-- The rows of the live query: growth filter, ordering, `LIMIT 500`. -/
def liveRows (db : DB) (cutoff : Nat) (tids : Option (List Int)) (ming : Option ℚ) :
    List LiveRow :=
  let all := (liveKeys db cutoff tids).map fun k => mkLiveRow db cutoff tids k.1 k.2
  let flt := all.filter fun r =>
    match ming with
    | none => true
    | some m => decide (m ≤ r.growth_rate)
  (flt.insertionSort liveOrder).take 500

/-- The record dict built by `_compute_evolution_metrics` for one live row:
it carries neither `new_authors` nor `top_keywords`. -/
def liveRecord (refined : List RefinedTopic) (r : LiveRow) : Rec :=
  [("topic_id", Val.vInt r.topic_id),
   ("topic_name", Val.vStr (refinedName refined r.topic_id)),
   ("date", Val.vNat r.date),
   ("hour", Val.vNat r.hour),
   ("tweet_count", Val.vNat r.tweet_count),
   ("unique_authors", Val.vNat r.unique_authors),
   ("avg_probability", Val.vRat r.avg_probability),
   ("total_engagement", Val.vInt r.total_engagement),
   ("viral_tweets", Val.vNat r.viral_tweets),
   ("growth_rate", Val.vRat r.growth_rate)]

/-- `_compute_evolution_metrics(topic_ids, hours, min_growth_rate)`, with
`cutoff = now - hours*3600` precomputed by the caller. -/
def computeEvolutionMetrics (db : DB) (refined : List RefinedTopic)
    (tids : Option (List Int)) (cutoff : Nat) (ming : Option ℚ) : List Rec :=
  (liveRows db cutoff (normTids tids) ming).map (liveRecord refined)

/-- The record dict built by `get_topic_evolution_trends` for one persisted
row: it carries `new_authors` and `top_keywords`. -/
def persistedRecord (refined : List RefinedTopic) (e : EvoRow) : Rec :=
  [("topic_id", Val.vInt e.topic_id),
   ("topic_name", Val.vStr (refinedName refined e.topic_id)),
   ("date", Val.vNat e.date),
   ("hour", Val.vNat e.hour),
   ("tweet_count", Val.vNat e.tweet_count),
   ("unique_authors", Val.vNat e.unique_authors),
   ("new_authors", Val.vNat e.new_authors),
   ("avg_probability", Val.vRat e.avg_probability),
   ("top_keywords", Val.vKw e.top_keywords),
   ("total_engagement", Val.vInt e.total_engagement),
   ("viral_tweets", Val.vNat e.viral_tweets),
   ("growth_rate", Val.vRat e.growth_rate)]

/-- `ORDER BY date DESC, growth_rate DESC` on persisted rows. -/
def persistedOrder (a b : EvoRow) : Prop :=
  b.date < a.date ∨ (a.date = b.date ∧ b.growth_rate ≤ a.growth_rate)

instance : DecidableRel persistedOrder := fun a b => by unfold persistedOrder; infer_instance

/-- `get_topic_evolution_trends(topic_ids, hours, min_growth_rate)`: the
dual-path entry point.  An empty persisted store takes the live-computation
path; otherwise the persisted store is filtered by
`date >= now - hours`, the (truthy) topic-id set and the growth floor. -/
def get_topic_evolution_trends (db : DB) (store : List EvoRow)
    (refined : List RefinedTopic) (tids : Option (List Int)) (hours : Nat)
    (ming : Option ℚ) (now : Nat) : List Rec :=
  if store.length = 0 then
    computeEvolutionMetrics db refined tids (now - hours * 3600) ming
  else
    let cutoff := now - hours * 3600
    let rows := store.filter fun r =>
      decide (cutoff ≤ r.date) &&
      (match normTids tids with
       | none => true
       | some l => l.contains r.topic_id) &&
      (match ming with
       | none => true
       | some m => decide (m ≤ r.growth_rate))
    (rows.insertionSort persistedOrder).map (persistedRecord refined)

/-!
## Theme breakdown and author expertise
-/

/-- A row of `tweet_collections` (theme-collection membership). -/
structure TweetCollection where
  tweet_id : String
  theme_name : String
  theme_code : String
  deriving DecidableEq, Repr

/-- A row of `themes`. -/
structure Theme where
  id : Int
  code : String
  deriving DecidableEq, Repr

/-- A row of `author_topics` (AuthorTopicStat), maintained by an external
rollup job and consumed read-only. -/
structure AuthorTopic where
  author_id : String
  topic_id : Int
  tweet_count : Nat
  avg_probability : ℚ
  max_probability : ℚ
  first_seen : Option Nat
  last_seen : Option Nat
  active_days : Nat
  total_engagement : Int
  avg_engagement : ℚ
  deriving DecidableEq, Repr

/-- The record dict built by `get_author_expertise` for one `AuthorTopic` row.
Its keys carry no monitoring priority. -/
def authorRecord (refined : List RefinedTopic) (a : AuthorTopic) : Rec :=
  [("author_id", Val.vStr a.author_id),
   ("topic_id", Val.vInt a.topic_id),
   ("topic_name", Val.vStr (refinedName refined a.topic_id)),
   ("tweet_count", Val.vNat a.tweet_count),
   ("avg_probability", Val.vRat a.avg_probability),
   ("max_probability", Val.vRat a.max_probability),
   ("first_seen", Val.vOptNat a.first_seen),
   ("last_seen", Val.vOptNat a.last_seen),
   ("active_days", Val.vNat a.active_days),
   ("total_engagement", Val.vInt a.total_engagement),
   ("avg_engagement", Val.vRat a.avg_engagement)]

/-- `ORDER BY total_engagement DESC, tweet_count DESC`. -/
def authorOrder (a b : AuthorTopic) : Prop :=
  b.total_engagement < a.total_engagement ∨
    (a.total_engagement = b.total_engagement ∧ b.tweet_count ≤ a.tweet_count)

instance : DecidableRel authorOrder := fun a b => by unfold authorOrder; infer_instance

/-- `get_author_expertise(topic_id, min_tweet_count, limit)`: filter by
minimum tweet count and (truthy) topic id, order, limit, and render records.
No outlier filter is applied. -/
def get_author_expertise (store : List AuthorTopic) (refined : List RefinedTopic)
    (topic_id : Option Int) (min_tweet_count : Nat) (lim : Nat) : List Rec :=
  let q : List AuthorTopic := store.filter fun a => decide (min_tweet_count ≤ a.tweet_count)
  let q : List AuthorTopic := match topic_id with
    | some t => if t ≠ 0 then q.filter fun a => a.topic_id == t else q
    | none => q
  ((q.insertionSort authorOrder).take lim).map (authorRecord refined)

/-- The per-topic entry of the theme-breakdown response (a dict with a fixed
literal key set, including the priority fallback `'medium'`). -/
structure TopicInfo where
  topic_id : Int
  refined_name : String
  category : Option String
  monitoring_priority : String
  tweet_count : Nat
  avg_probability : ℚ
  unique_authors : Nat
  deriving DecidableEq, Repr

/-- The per-theme entry of the theme-breakdown response. -/
structure ThemeData where
  theme_name : String
  topics : List TopicInfo
  total_tweets : Nat
  total_authors : Nat
  deriving DecidableEq, Repr

/-- The three-way join of `get_topic_theme_analytics`:
`tweet_collections ⋈ tweet_topics ⋈ tweets` on `tweet_id`. -/
def themeJoined (colls : List TweetCollection) (db : DB) :
    List (TweetCollection × TweetTopic × Tweet) :=
  colls.flatMap fun c =>
    (db.tweet_topics.filter fun tt => tt.tweet_id == c.tweet_id).flatMap fun tt =>
      (db.tweets.filter fun t => t.tweet_id == c.tweet_id).map fun t => (c, tt, t)

/-- The theme filter of the breakdown query: applied only when the given
`theme_id` is truthy AND a `Theme` row with that id exists. -/
def themeFilterPred (themes : List Theme) (theme_id : Option Int)
    (c : TweetCollection) : Bool :=
  match theme_id with
  | some i =>
    if i ≠ 0 then
      match themes.find? fun th => th.id == i with
      | some th => c.theme_code == th.code
      | none => true
    else true
  | none => true

/-- The filtered rows of the theme-breakdown base query: outlier exclusion,
the theme filter and the optional inclusive date filters (successive
`.where` clauses, here one conjunctive filter). -/
def themeRows (colls : List TweetCollection) (db : DB) (themes : List Theme)
    (theme_id : Option Int) (sd ed : Option Nat) :
    List (TweetCollection × TweetTopic × Tweet) :=
  (themeJoined colls db).filter fun r =>
    decide (r.2.1.topic_id ≠ -1) && themeFilterPred themes theme_id r.1 &&
    (match sd with | some s => decide (s ≤ r.2.2.created_at) | none => true) &&
    (match ed with | some e => decide (r.2.2.created_at ≤ e) | none => true)

/-- The `GROUP BY (theme_name, topic_id)` keys, in first-occurrence order. -/
def themeKeys (rows : List (TweetCollection × TweetTopic × Tweet)) :
    List (String × Int) :=
  (rows.map fun r => (r.1.theme_name, r.2.1.topic_id)).dedup

/-- The rows of one (theme_name, topic_id) group. -/
def themeGroup (rows : List (TweetCollection × TweetTopic × Tweet))
    (th : String) (T : Int) : List (TweetCollection × TweetTopic × Tweet) :=
  rows.filter fun r => decide (r.1.theme_name = th ∧ r.2.1.topic_id = T)

/-- The `topic_info` dict for one group row, with the RefinedTopic fallback:
name `"Topic {id}"`, category `None`, priority `'medium'`. -/
def mkTopicInfo (refined : List RefinedTopic)
    (rows : List (TweetCollection × TweetTopic × Tweet)) (th : String) (T : Int) :
    TopicInfo :=
  let g := themeGroup rows th T
  { topic_id := T
    refined_name := refinedName refined T
    category := (refined.find? fun r => r.topic_id == T).bind fun r => r.category
    monitoring_priority :=
      match refined.find? fun r => r.topic_id == T with
      | some r => r.monitoring_priority
      | none => "medium"
    tweet_count := ((g.map fun r => r.2.1.tweet_id).dedup).length
    avg_probability :=
      ((g.map fun r => r.2.1.probability).sum) / ((g.map fun r => r.2.1.probability).length)
    unique_authors := ((g.map fun r => r.2.2.author_id).dedup).length }

/-- `get_topic_theme_analytics(theme_id, start_date, end_date)`: group the
filtered rows by theme, attach enriched topic entries, accumulate totals and
sort each theme's topics by descending tweet count. -/
def get_topic_theme_analytics (colls : List TweetCollection) (db : DB)
    (themes : List Theme) (refined : List RefinedTopic)
    (theme_id : Option Int) (sd ed : Option Nat) : List (String × ThemeData) :=
  let rows := themeRows colls db themes theme_id sd ed
  let perTheme := ((themeKeys rows).map fun k => k.1).dedup
  perTheme.map fun th =>
    let infos := ((themeKeys rows).filter fun k => k.1 == th).map fun k =>
      mkTopicInfo refined rows th k.2
    (th,
      { theme_name := th
        topics := infos.insertionSort fun a b => b.tweet_count ≤ a.tweet_count
        total_tweets := (infos.map fun i => i.tweet_count).sum
        total_authors := (infos.map fun i => i.unique_authors).sum })

/-!
## Refinement Pipeline cost governance (`refine_topics.py` / `llm_analyzer.py`)
-/

/-- The batch loop of `process_topics`: before each batch the accumulated
`analyzer.total_cost` is checked against `MAX_COST_PER_RUN`; at or above the
limit the loop breaks, otherwise the batch is analyzed and its cost added to
the running total.  Returns the number of batches actually sent. -/
def batchesProcessed (maxCost : ℚ) : ℚ → List ℚ → Nat
  | _, [] => 0
  | acc, c :: rest =>
    if maxCost ≤ acc then 0 else batchesProcessed maxCost (acc + c) rest + 1

/-- The accumulated cost after the first `j` batches. -/
def prefixCost (cs : List ℚ) (j : Nat) : ℚ := (cs.take j).sum

/-!
## Derived notions used by the verification
-/

/-- The unique-constraint key of a persisted row. -/
def evoKey (r : EvoRow) : Int × Nat × Nat := (r.topic_id, r.date, r.hour)

/-- A row with its `growth_rate` erased: the portion of a row that is a pure
function of the raw data. -/
def dropG (r : EvoRow) : EvoRow := { r with growth_rate := 0 }

/-- The `(topic, date, hour)` keys the day-batch loop upserts, in order. -/
def emittedKeys (db : DB) : Nat → Nat → Nat → List (Int × Nat × Nat)
  | 0, _, _ => []
  | fuel + 1, cur, fin =>
    if cur < fin then
      ((bucketKeys db cur (min (cur + 86400) fin)).map fun k => (k.1, k.2, hourOfDay k.2)) ++
        emittedKeys db fuel (min (cur + 86400) fin) fin
    else []

/-- The joined rows with the outlier filter but no time window. -/
def rawRows (db : DB) : List (TweetTopic × Tweet) :=
  (joined db).filter fun r => decide (r.1.topic_id ≠ -1)

/-- All rows of one (topic, hour-bucket) group, over all history. -/
def rawBucket (db : DB) (T : Int) (d : Nat) : List (TweetTopic × Tweet) :=
  rowsAt (rawRows db) T d

/-- The raw distinct-tweet count of a bucket. -/
def rawCount (db : DB) (T : Int) (d : Nat) : Nat :=
  cntTweets (rawBucket db T d)

/-- The canonical row of bucket `(T, d)`: the batch row computed over exactly
the bucket's own hour, against an empty store (its `growth_rate` is 0). -/
def rawRow (db : DB) (T : Int) (d : Nat) : EvoRow :=
  mkRow db [] d (d + 3600) T d

/-- The growth-rate formula the spec states, evaluated on raw bucket counts
within the processed range `[s, e)`: `(c - p) / p` against the immediately
preceding hour's bucket, 0 when that bucket is absent (or outside the range)
or empty. -/
def specGrowth (db : DB) (s : Nat) (T : Int) (d : Nat) : ℚ :=
  if 3600 ≤ d ∧ s ≤ d - 3600 ∧ rawBucket db T (d - 3600) ≠ [] then
    let p := rawCount db T (d - 3600)
    if 0 < p then ((rawCount db T d : ℚ) - (p : ℚ)) / (p : ℚ) else 0
  else 0

/-!
## Concrete datasets for the counterexamples and witnesses
-/

/-- A tweet with the given id, author and time, no engagement and empty text. -/
def tw (i a : String) (t : Nat) : Tweet := ⟨i, a, t, 0, ""⟩

/-- Topic 1 has one post in hour 0 and two in hour 1. -/
def dbC1 : DB := ⟨[tw "a" "u1" 0, tw "b" "u2" 3600, tw "c" "u3" 3700],
  [⟨"a", 1, 1⟩, ⟨"b", 1, 1⟩, ⟨"c", 1, 1⟩]⟩

/-- Topic 1 has one post in hour 0, two in hour 2 and none in hour 1. -/
def dbC2 : DB := ⟨[tw "a" "u1" 0, tw "b" "u2" 7200, tw "c" "u3" 7201],
  [⟨"a", 1, 1⟩, ⟨"b", 1, 1⟩, ⟨"c", 1, 1⟩]⟩

/-- `n` tweets of distinct ids/authors prefixed `p`, starting at `base`. -/
def mkTws (p : String) (n : Nat) (base : Nat) : List Tweet :=
  (List.range n).map fun i => tw (p ++ toString i) (p ++ "u" ++ toString i) (base + i)

/-- The spec's growth scenario: topic 1 with 10 posts in hour 1 and 15 in
hour 2. -/
def dbC3 : DB := ⟨mkTws "a" 10 3600 ++ mkTws "b" 15 7200,
  ((List.range 10).map fun i => (⟨"a" ++ toString i, 1, 1⟩ : TweetTopic)) ++
  ((List.range 15).map fun i => (⟨"b" ++ toString i, 1, 1⟩ : TweetTopic))⟩

/-- One post whose text has ten once-occurring qualifying words that precede,
lexicographically, a word occurring three times. -/
def dbC6 : DB :=
  ⟨[⟨"a", "u1", 0, 0, "aaaa bbbb cccc dddd eeee ffff gggg hhhh iiii jjjj zzzz zzzz zzzz"⟩],
   [⟨"a", 1, 1⟩]⟩

/-- An author-topic rollup row carrying the outlier sentinel topic. -/
def atOutlier : AuthorTopic := ⟨"u1", -1, 5, 1, 1, none, none, 1, 10, 2⟩

/-- An author-topic rollup row for the unrefined topic 42. -/
def at42 : AuthorTopic := ⟨"u1", 42, 5, 1, 1, none, none, 1, 10, 2⟩

/-- A tiny raw dataset with one post under topic 1. -/
def dbC9 : DB := ⟨[tw "a" "u1" 0], [⟨"a", 1, 1⟩]⟩

/-- One collection row putting that post under theme `ThemeA`. -/
def collsC9 : List TweetCollection := [⟨"a", "ThemeA", "TA"⟩]

/-- A literal persisted row used to exercise the persisted-path record shape. -/
def evoW : EvoRow := ⟨7, 3600, 1, 3, 2, 1, 1, some ["word"], 5, 0, 0⟩

/-- New-author scenario: author `u1` first posts under topic 1 at hour 0 and
posts again at hour 2; author `u2` first posts at hour 2. -/
def dbC5 : DB := ⟨[tw "a" "u1" 600, tw "b" "u1" 7300, tw "c" "u2" 7400],
  [⟨"a", 1, 1⟩, ⟨"b", 1, 1⟩, ⟨"c", 1, 1⟩]⟩

/-- The times of all posts by author `a` under topic `T` (joined rows over
all history). -/
def postTimes (db : DB) (T : Int) (a : String) : List Nat :=
  ((joined db).filter fun r =>
    decide (r.1.topic_id = T ∧ r.2.author_id = a)).map fun r => r.2.created_at

/-!
## Time arithmetic lemmas
-/

lemma hourBucket_le (t : Nat) : hourBucket t ≤ t := by
  unfold hourBucket
  omega

lemma lt_hourBucket_add (t : Nat) : t < hourBucket t + 3600 := by
  unfold hourBucket
  omega

lemma hourBucket_dvd (t : Nat) : 3600 ∣ hourBucket t := ⟨t / 3600, rfl⟩

lemma hourBucket_eq_self {t : Nat} (h : 3600 ∣ t) : hourBucket t = t := by
  obtain ⟨k, rfl⟩ := h
  unfold hourBucket
  omega

lemma hourBucket_mono {a b : Nat} (h : a ≤ b) : hourBucket a ≤ hourBucket b := by
  unfold hourBucket
  omega

lemma hourBucket_char {t d : Nat} (hd : 3600 ∣ d) :
    hourBucket t = d ↔ d ≤ t ∧ t < d + 3600 := by
  obtain ⟨k, rfl⟩ := hd
  unfold hourBucket
  omega

/-!
## Store lemmas: `findRow` and the upsert
-/

lemma findRow_cons (x : EvoRow) (xs : List EvoRow) (T : Int) (d : Nat) (h : Nat) :
    findRow (x :: xs) T d h =
      if x.topic_id = T ∧ x.date = d ∧ x.hour = h then some x else findRow xs T d h := by
  unfold findRow
  by_cases hx : x.topic_id = T ∧ x.date = d ∧ x.hour = h
  · rw [List.find?_cons_of_pos _ (by simpa using hx), if_pos hx]
  · rw [List.find?_cons_of_neg _ (by simpa using hx), if_neg hx]

lemma sameKey_iff (a b : EvoRow) :
    sameKey a b = true ↔ a.topic_id = b.topic_id ∧ a.date = b.date ∧ a.hour = b.hour := by
  simp [sameKey]

lemma findRow_upsertRow (S : List EvoRow) (r : EvoRow) (T : Int) (d : Nat) (h : Nat) :
    findRow (upsertRow S r) T d h =
      if r.topic_id = T ∧ r.date = d ∧ r.hour = h then some r else findRow S T d h := by
  induction S with
  | nil =>
    rw [upsertRow, findRow_cons]
  | cons x xs ih =>
    rw [upsertRow]
    by_cases hs : sameKey r x
    · have hkey := (sameKey_iff r x).mp hs
      rw [if_pos hs, findRow_cons, findRow_cons]
      by_cases hk : r.topic_id = T ∧ r.date = d ∧ r.hour = h
      · have hx : x.topic_id = T ∧ x.date = d ∧ x.hour = h :=
          ⟨hkey.1 ▸ hk.1, hkey.2.1 ▸ hk.2.1, hkey.2.2 ▸ hk.2.2⟩
        simp only [if_pos hk]
      · have hx : ¬(x.topic_id = T ∧ x.date = d ∧ x.hour = h) := by
          rintro ⟨h1, h2, h3⟩
          exact hk ⟨hkey.1.trans h1, hkey.2.1.trans h2, hkey.2.2.trans h3⟩
        simp only [if_neg hk, if_neg hx]
    · rw [if_neg hs, findRow_cons, findRow_cons, ih]
      by_cases hx : x.topic_id = T ∧ x.date = d ∧ x.hour = h
      · have hk : ¬(r.topic_id = T ∧ r.date = d ∧ r.hour = h) := by
          rintro ⟨h1, h2, h3⟩
          exact hs ((sameKey_iff r x).mpr
            ⟨h1.trans hx.1.symm, h2.trans hx.2.1.symm, h3.trans hx.2.2.symm⟩)
        simp only [if_pos hx, if_neg hk]
      · simp only [if_neg hx]

lemma mem_upsertRow {S : List EvoRow} {r x : EvoRow} (hx : x ∈ upsertRow S r) :
    x ∈ S ∨ x = r := by
  induction S with
  | nil => simpa [upsertRow] using hx
  | cons y ys ih =>
    rw [upsertRow] at hx
    by_cases hs : sameKey r y
    · rw [if_pos hs] at hx
      rcases List.mem_cons.mp hx with h | h
      · exact Or.inr h
      · exact Or.inl (List.mem_cons_of_mem _ h)
    · rw [if_neg hs] at hx
      rcases List.mem_cons.mp hx with h | h
      · exact Or.inl (h ▸ List.mem_cons_self _ _)
      · rcases ih h with h2 | h2
        · exact Or.inl (List.mem_cons_of_mem _ h2)
        · exact Or.inr h2

lemma mem_upsertAll {S : List EvoRow} {rows : List EvoRow} {x : EvoRow}
    (hx : x ∈ upsertAll S rows) : x ∈ S ∨ x ∈ rows := by
  induction rows generalizing S with
  | nil => exact Or.inl (by simpa [upsertAll] using hx)
  | cons y ys ih =>
    rw [upsertAll, List.foldl_cons] at hx
    rcases ih (by simpa [upsertAll] using hx) with h | h
    · rcases mem_upsertRow h with h2 | h2
      · exact Or.inl h2
      · exact Or.inr (h2 ▸ List.mem_cons_self _ _)
    · exact Or.inr (List.mem_cons_of_mem _ h)

lemma findRow_upsertAll_of_not_mem (S : List EvoRow) (rows : List EvoRow)
    (T : Int) (d : Nat) (h : Nat)
    (hrows : ∀ r ∈ rows, ¬(r.topic_id = T ∧ r.date = d ∧ r.hour = h)) :
    findRow (upsertAll S rows) T d h = findRow S T d h := by
  induction rows generalizing S with
  | nil => simp [upsertAll]
  | cons y ys ih =>
    rw [upsertAll, List.foldl_cons]
    rw [show List.foldl upsertRow (upsertRow S y) ys = upsertAll (upsertRow S y) ys from rfl]
    rw [ih (upsertRow S y) fun r hr => hrows r (List.mem_cons_of_mem _ hr)]
    rw [findRow_upsertRow, if_neg (hrows y (List.mem_cons_self _ _))]

lemma findRow_upsertAll_of_mem (S : List EvoRow) (rows : List EvoRow) (r : EvoRow)
    (hr : r ∈ rows) (hnd : (rows.map evoKey).Nodup) :
    findRow (upsertAll S rows) r.topic_id r.date r.hour = some r := by
  induction rows generalizing S with
  | nil => cases hr
  | cons y ys ih =>
    rw [upsertAll, List.foldl_cons,
      show List.foldl upsertRow (upsertRow S y) ys = upsertAll (upsertRow S y) ys from rfl]
    rw [List.map_cons, List.nodup_cons] at hnd
    rcases List.mem_cons.mp hr with h | h
    · subst h
      rw [findRow_upsertAll_of_not_mem]
      · rw [findRow_upsertRow, if_pos ⟨rfl, rfl, rfl⟩]
      · intro z hz hzk
        exact hnd.1 (List.mem_map.mpr ⟨z, hz, by simp [evoKey, hzk.1, hzk.2.1, hzk.2.2]⟩)
    · exact ih _ h hnd.2

/-!
## The day-batch loop: fuel, preservation and store-independence
-/

lemma computeRangeFuel_congr (db : DB) :
    ∀ f g S cur fin, rangeFuel cur fin ≤ f → rangeFuel cur fin ≤ g →
      computeRangeFuel db f S cur fin = computeRangeFuel db g S cur fin := by
  intro f
  induction f with
  | zero =>
    intro g S cur fin hf hg
    have hfin : ¬cur < fin := by unfold rangeFuel at hf; omega
    cases g with
    | zero => rfl
    | succ g => rw [computeRangeFuel, computeRangeFuel, if_neg hfin]
  | succ f ih =>
    intro g S cur fin hf hg
    by_cases hc : cur < fin
    · have h1 : 1 ≤ rangeFuel cur fin := by unfold rangeFuel; omega
      cases g with
      | zero => omega
      | succ g =>
        rw [computeRangeFuel, computeRangeFuel, if_pos hc, if_pos hc]
        exact ih g _ _ _ (by unfold rangeFuel at *; omega) (by unfold rangeFuel at *; omega)
    · cases g with
      | zero => rw [computeRangeFuel, computeRangeFuel, if_neg hc]
      | succ g => rw [computeRangeFuel, computeRangeFuel, if_neg hc, if_neg hc]

lemma computeRange_step (db : DB) (S : List EvoRow) (cur fin : Nat) (h : cur < fin) :
    computeRange db S cur fin =
      computeRange db (upsertAll S (computeBatch db S cur (min (cur + 86400) fin)))
        (min (cur + 86400) fin) fin := by
  unfold computeRange
  obtain ⟨f, hf⟩ : ∃ f, rangeFuel cur fin = f + 1 :=
    ⟨rangeFuel cur fin - 1, by unfold rangeFuel; omega⟩
  rw [hf, computeRangeFuel, if_pos h]
  exact computeRangeFuel_congr db f _ _ _ _ (by unfold rangeFuel at *; omega) le_rfl

lemma computeRange_base (db : DB) (S : List EvoRow) (cur fin : Nat) (h : ¬cur < fin) :
    computeRange db S cur fin = S := by
  unfold computeRange
  cases hf : rangeFuel cur fin with
  | zero => rw [computeRangeFuel]
  | succ f => rw [computeRangeFuel, if_neg h]

lemma mem_computeBatch {db : DB} {S : List EvoRow} {s e : Nat} {r : EvoRow}
    (hr : r ∈ computeBatch db S s e) :
    ∃ k ∈ bucketKeys db s e, r = mkRow db S s e k.1 k.2 := by
  obtain ⟨k, hk, hkr⟩ := List.mem_map.mp hr
  exact ⟨k, hk, hkr.symm⟩

lemma evoKey_mkRow (db : DB) (S : List EvoRow) (s e : Nat) (T : Int) (d : Nat) :
    evoKey (mkRow db S s e T d) = (T, d, hourOfDay d) := rfl

lemma computeBatch_keys (db : DB) (S : List EvoRow) (s e : Nat) :
    (computeBatch db S s e).map evoKey =
      (bucketKeys db s e).map fun k => (k.1, k.2, hourOfDay k.2) := by
  unfold computeBatch
  rw [List.map_map]
  rfl

lemma computeBatch_keys_nodup (db : DB) (S : List EvoRow) (s e : Nat) :
    ((computeBatch db S s e).map evoKey).Nodup := by
  rw [computeBatch_keys]
  refine List.Nodup.map ?_ ?_
  · intro a b hab
    have hab' : (a.1, a.2, hourOfDay a.2) = (b.1, b.2, hourOfDay b.2) := hab
    simp only [Prod.mk.injEq] at hab'
    exact Prod.ext hab'.1 hab'.2.1
  · exact List.nodup_dedup _

lemma dropG_mkRow_store (db : DB) (S S' : List EvoRow) (s e : Nat) (T : Int) (d : Nat) :
    dropG (mkRow db S s e T d) = dropG (mkRow db S' s e T d) := rfl

lemma findRow_computeRangeFuel_of_not_emitted (db : DB) :
    ∀ f S cur fin (T : Int) (d h : Nat), rangeFuel cur fin ≤ f →
      (T, d, h) ∉ emittedKeys db f cur fin →
      findRow (computeRangeFuel db f S cur fin) T d h = findRow S T d h := by
  intro f
  induction f with
  | zero => intro S cur fin T d h _ _; rfl
  | succ f ih =>
    intro S cur fin T d h hf hmem
    by_cases hc : cur < fin
    · rw [emittedKeys, if_pos hc] at hmem
      rw [List.mem_append, not_or] at hmem
      rw [computeRangeFuel, if_pos hc]
      rw [ih _ _ _ _ _ _ (by unfold rangeFuel at *; omega) hmem.2]
      apply findRow_upsertAll_of_not_mem
      intro r hr hk
      obtain ⟨k, hkmem, rfl⟩ := mem_computeBatch hr
      exact hmem.1 (List.mem_map.mpr ⟨k, hkmem,
        Prod.ext hk.1 (Prod.ext hk.2.1 hk.2.2)⟩)
    · rw [computeRangeFuel, if_neg hc]

lemma findRow_computeRangeFuel_of_emitted (db : DB) :
    ∀ f S S' cur fin (T : Int) (d h : Nat), rangeFuel cur fin ≤ f →
      (T, d, h) ∈ emittedKeys db f cur fin →
      (findRow (computeRangeFuel db f S cur fin) T d h).map dropG =
        (findRow (computeRangeFuel db f S' cur fin) T d h).map dropG := by
  intro f
  induction f with
  | zero => intro S S' cur fin T d h _ hmem; cases hmem
  | succ f ih =>
    intro S S' cur fin T d h hf hmem
    by_cases hc : cur < fin
    · rw [emittedKeys, if_pos hc] at hmem
      rw [computeRangeFuel, computeRangeFuel, if_pos hc, if_pos hc]
      have hfuel : rangeFuel (min (cur + 86400) fin) fin ≤ f := by
        unfold rangeFuel at *; omega
      by_cases hrest : (T, d, h) ∈ emittedKeys db f (min (cur + 86400) fin) fin
      · exact ih _ _ _ _ _ _ _ hfuel hrest
      · have hbatch : (T, d, h) ∈
            (bucketKeys db cur (min (cur + 86400) fin)).map fun k => (k.1, k.2, hourOfDay k.2) := by
          rcases List.mem_append.mp hmem with h1 | h1
          · exact h1
          · exact absurd h1 hrest
        obtain ⟨k, hkmem, hkeq⟩ := List.mem_map.mp hbatch
        have hT : k.1 = T := congrArg Prod.fst hkeq
        have hd : k.2 = d := congrArg (fun p => p.2.1) hkeq
        have hh : hourOfDay k.2 = h := congrArg (fun p => p.2.2) hkeq
        subst hT hd
        rw [findRow_computeRangeFuel_of_not_emitted db f _ _ _ _ _ _ hfuel hrest,
          findRow_computeRangeFuel_of_not_emitted db f _ _ _ _ _ _ hfuel hrest]
        have hmk : findRow (upsertAll S (computeBatch db S cur (min (cur + 86400) fin)))
            k.1 k.2 (hourOfDay k.2) = some (mkRow db S cur (min (cur + 86400) fin) k.1 k.2) :=
          findRow_upsertAll_of_mem S (computeBatch db S cur (min (cur + 86400) fin))
            (mkRow db S cur (min (cur + 86400) fin) k.1 k.2)
            (List.mem_map.mpr ⟨k, hkmem, rfl⟩) (computeBatch_keys_nodup db S _ _)
        have hmk' : findRow (upsertAll S' (computeBatch db S' cur (min (cur + 86400) fin)))
            k.1 k.2 (hourOfDay k.2) = some (mkRow db S' cur (min (cur + 86400) fin) k.1 k.2) :=
          findRow_upsertAll_of_mem S' (computeBatch db S' cur (min (cur + 86400) fin))
            (mkRow db S' cur (min (cur + 86400) fin) k.1 k.2)
            (List.mem_map.mpr ⟨k, hkmem, rfl⟩) (computeBatch_keys_nodup db S' _ _)
        rw [← hh, hmk, hmk']
        show some (dropG (mkRow db S cur (min (cur + 86400) fin) k.1 k.2)) =
          some (dropG (mkRow db S' cur (min (cur + 86400) fin) k.1 k.2))
        exact congrArg some (dropG_mkRow_store db S S' cur (min (cur + 86400) fin) k.1 k.2)
    · rw [emittedKeys, if_neg hc] at hmem; cases hmem

lemma evoKey_eq_of_sameKey {r y : EvoRow} (h : sameKey r y) : evoKey r = evoKey y := by
  obtain ⟨h1, h2, h3⟩ := (sameKey_iff r y).mp h
  exact Prod.ext h1 (Prod.ext h2 h3)

lemma sameKey_of_evoKey_eq {r y : EvoRow} (h : evoKey r = evoKey y) : sameKey r y := by
  simp only [evoKey, Prod.mk.injEq] at h
  exact (sameKey_iff r y).mpr ⟨h.1, h.2.1, h.2.2⟩

lemma keys_nodup_upsertRow {S : List EvoRow} (r : EvoRow)
    (hnd : (S.map evoKey).Nodup) : ((upsertRow S r).map evoKey).Nodup := by
  induction S with
  | nil => simp [upsertRow]
  | cons y ys ih =>
    rw [List.map_cons, List.nodup_cons] at hnd
    rw [upsertRow]
    by_cases hs : sameKey r y
    · rw [if_pos hs, List.map_cons, List.nodup_cons]
      exact ⟨(evoKey_eq_of_sameKey hs) ▸ hnd.1, hnd.2⟩
    · rw [if_neg hs, List.map_cons, List.nodup_cons]
      refine ⟨?_, ih hnd.2⟩
      intro hmem
      obtain ⟨z, hz, hzk⟩ := List.mem_map.mp hmem
      rcases mem_upsertRow hz with h2 | h2
      · exact hnd.1 (List.mem_map.mpr ⟨z, h2, hzk⟩)
      · subst h2
        exact hs (sameKey_of_evoKey_eq hzk)

lemma keys_nodup_upsertAll {S : List EvoRow} (rows : List EvoRow)
    (hnd : (S.map evoKey).Nodup) : ((upsertAll S rows).map evoKey).Nodup := by
  induction rows generalizing S with
  | nil => simpa [upsertAll] using hnd
  | cons y ys ih =>
    rw [upsertAll, List.foldl_cons,
      show List.foldl upsertRow (upsertRow S y) ys = upsertAll (upsertRow S y) ys from rfl]
    exact ih (keys_nodup_upsertRow y hnd)

lemma keys_nodup_computeRangeFuel (db : DB) :
    ∀ f S cur fin, ((S : List EvoRow).map evoKey).Nodup →
      ((computeRangeFuel db f S cur fin).map evoKey).Nodup := by
  intro f
  induction f with
  | zero => intro S cur fin h; exact h
  | succ f ih =>
    intro S cur fin h
    rw [computeRangeFuel]
    by_cases hc : cur < fin
    · rw [if_pos hc]
      exact ih _ _ _ (keys_nodup_upsertAll _ h)
    · rw [if_neg hc]; exact h

lemma keys_nodup_computeRange (db : DB) (S : List EvoRow) (cur fin : Nat)
    (h : (S.map evoKey).Nodup) : ((computeRange db S cur fin).map evoKey).Nodup :=
  keys_nodup_computeRangeFuel db _ S cur fin h

/-!
## Claim C1
-/

/-- C1 counterexample: over `dbC1` (one post in hour 0, two in hour 1), the
first run of `compute_range(0, 7200)` persists `growth_rate = 0` for the
hour-1 bucket of topic 1, but re-running over identical raw data changes it
to 1, because the `previous_hour` CTE reads the previously persisted store:
the two final states are not identical, contradicting the claim. -/
theorem computeRange_growth_drift_cex :
    (findRow (computeRange dbC1 [] 0 7200) 1 3600 1).map (fun r => r.growth_rate) =
      some 0 ∧
    (findRow (computeRange dbC1 (computeRange dbC1 [] 0 7200) 0 7200) 1 3600 1).map
      (fun r => r.growth_rate) = some 1 :=
  ⟨by with_unfolding_all decide, by with_unfolding_all decide⟩

/-- C1 as amended: re-running `compute_range(start, end)` over identical raw
data leaves every `(topic_id, date, hour)` key bound to a row with identical
values in every field other than `growth_rate` (which may drift between the
first and the second run, as the counterexample shows), and neither run
duplicates rows: the key sets of both final states are duplicate-free. -/
theorem computeRange_idempotent_except_growth (db : DB) (s e : Nat)
    (T : Int) (d h : Nat) :
    (findRow (computeRange db (computeRange db [] s e) s e) T d h).map dropG =
      (findRow (computeRange db [] s e) T d h).map dropG ∧
    ((computeRange db [] s e).map evoKey).Nodup ∧
    ((computeRange db (computeRange db [] s e) s e).map evoKey).Nodup := by
  refine ⟨?_, keys_nodup_computeRange db [] s e (by simp),
    keys_nodup_computeRange db _ s e (keys_nodup_computeRange db [] s e (by simp))⟩
  by_cases hmem : (T, d, h) ∈ emittedKeys db (rangeFuel s e) s e
  · exact findRow_computeRangeFuel_of_emitted db (rangeFuel s e)
      (computeRange db [] s e) [] s e T d h le_rfl hmem
  · rw [show computeRange db (computeRange db [] s e) s e =
        computeRangeFuel db (rangeFuel s e) (computeRange db [] s e) s e from rfl,
      findRow_computeRangeFuel_of_not_emitted db (rangeFuel s e) _ s e T d h le_rfl hmem,
      show computeRange db [] s e = computeRangeFuel db (rangeFuel s e) [] s e from rfl,
      findRow_computeRangeFuel_of_not_emitted db (rangeFuel s e) _ s e T d h le_rfl hmem]

/-!
## Membership bridges
-/

lemma mem_keysOf {rows : List (TweetTopic × Tweet)} {T : Int} {d : Nat} :
    (T, d) ∈ keysOf rows ↔
      ∃ r ∈ rows, r.1.topic_id = T ∧ hourBucket r.2.created_at = d := by
  unfold keysOf
  rw [List.mem_dedup]
  constructor
  · intro h
    obtain ⟨r, hr, hk⟩ := List.mem_map.mp h
    simp only [Prod.mk.injEq] at hk
    exact ⟨r, hr, hk.1, hk.2⟩
  · rintro ⟨r, hr, h1, h2⟩
    exact List.mem_map.mpr ⟨r, hr, by rw [h1, h2]⟩

lemma mem_wrows {db : DB} {s e : Nat} {r : TweetTopic × Tweet} :
    r ∈ wrows db s e ↔
      r ∈ joined db ∧ r.1.topic_id ≠ -1 ∧ s ≤ r.2.created_at ∧ r.2.created_at < e := by
  unfold wrows
  rw [List.mem_filter]
  simp only [decide_eq_true_eq]

lemma mem_lrows {db : DB} {cutoff : Nat} {tids : Option (List Int)} {r : TweetTopic × Tweet} :
    r ∈ lrows db cutoff tids ↔
      r ∈ joined db ∧ (r.1.topic_id ≠ -1 ∧ cutoff ≤ r.2.created_at) ∧
        topicSelected tids r.1.topic_id := by
  unfold lrows
  rw [List.mem_filter, Bool.and_eq_true]
  simp only [decide_eq_true_eq]

lemma mem_bucketKeys {db : DB} {s e : Nat} {T : Int} {d : Nat}
    (h : (T, d) ∈ bucketKeys db s e) :
    T ≠ -1 ∧ 3600 ∣ d ∧ hourBucket s ≤ d ∧ d < e := by
  obtain ⟨r, hr, h1, h2⟩ := mem_keysOf.mp h
  rw [mem_wrows] at hr
  refine ⟨h1 ▸ hr.2.1, h2 ▸ hourBucket_dvd _, h2 ▸ hourBucket_mono hr.2.2.1, ?_⟩
  calc d = hourBucket r.2.created_at := h2.symm
    _ ≤ r.2.created_at := hourBucket_le _
    _ < e := hr.2.2.2

/-- Invariant propagation along the day-batch loop. -/
lemma computeRangeFuel_invariant (db : DB) (P : EvoRow → Prop) (lo hi : Nat)
    (hbatch : ∀ (S : List EvoRow) (s e : Nat) (T : Int) (d : Nat),
      lo ≤ s → e ≤ hi → (T, d) ∈ bucketKeys db s e → P (mkRow db S s e T d)) :
    ∀ f S cur fin, lo ≤ cur → fin ≤ hi → (∀ x ∈ S, P x) →
      ∀ r ∈ computeRangeFuel db f S cur fin, P r := by
  intro f
  induction f with
  | zero => intro S cur fin _ _ hS r hr; exact hS r hr
  | succ f ih =>
    intro S cur fin hlo hhi hS r hr
    rw [computeRangeFuel] at hr
    by_cases hc : cur < fin
    · rw [if_pos hc] at hr
      refine ih _ _ _ (by omega) hhi ?_ r hr
      intro x hx
      rcases mem_upsertAll hx with h2 | h2
      · exact hS x h2
      · obtain ⟨k, hk, rfl⟩ := mem_computeBatch h2
        exact hbatch S cur _ k.1 k.2 hlo (by omega) hk
    · rw [if_neg hc] at hr
      exact hS r hr

lemma mem_liveRows_elim {db : DB} {cutoff : Nat} {tids : Option (List Int)}
    {ming : Option ℚ} {r : LiveRow} (hr : r ∈ liveRows db cutoff tids ming) :
    ∃ k ∈ liveKeys db cutoff tids, r = mkLiveRow db cutoff tids k.1 k.2 := by
  unfold liveRows at hr
  have h1 := List.take_subset _ _ hr
  rw [(List.perm_insertionSort liveOrder _).mem_iff] at h1
  have h2 := List.mem_of_mem_filter h1
  obtain ⟨k, hk, hkr⟩ := List.mem_map.mp h2
  exact ⟨k, hk, hkr.symm⟩

lemma themeRows_subset (colls : List TweetCollection) (db : DB) (themes : List Theme)
    (theme_id : Option Int) (sd ed : Option Nat) :
    ∀ r ∈ themeRows colls db themes theme_id sd ed,
      r ∈ themeJoined colls db ∧ r.2.1.topic_id ≠ -1 := by
  intro r hr
  unfold themeRows at hr
  rw [List.mem_filter, Bool.and_eq_true, Bool.and_eq_true, Bool.and_eq_true] at hr
  exact ⟨hr.1, of_decide_eq_true hr.2.1.1.1⟩

lemma mem_theme_analytics_elim {colls : List TweetCollection} {db : DB}
    {themes : List Theme} {refined : List RefinedTopic} {tid : Option Int}
    {sd ed : Option Nat} {th : String} {td : ThemeData} {info : TopicInfo}
    (h : (th, td) ∈ get_topic_theme_analytics colls db themes refined tid sd ed)
    (hinfo : info ∈ td.topics) :
    ∃ k ∈ themeKeys (themeRows colls db themes tid sd ed),
      info = mkTopicInfo refined (themeRows colls db themes tid sd ed) th k.2 := by
  unfold get_topic_theme_analytics at h
  obtain ⟨th', _, hth⟩ := List.mem_map.mp h
  injection hth with hth1 hth2
  subst hth1
  rw [← hth2] at hinfo
  try dsimp only at hinfo
  rw [(List.perm_insertionSort _ _).mem_iff] at hinfo
  obtain ⟨k, hk, hkeq⟩ := List.mem_map.mp hinfo
  exact ⟨k, List.mem_of_mem_filter hk, hkeq.symm⟩

lemma mem_themeKeys {rows : List (TweetCollection × TweetTopic × Tweet)}
    {k : String × Int} (h : k ∈ themeKeys rows) :
    ∃ r ∈ rows, r.1.theme_name = k.1 ∧ r.2.1.topic_id = k.2 := by
  unfold themeKeys at h
  rw [List.mem_dedup] at h
  obtain ⟨r, hr, hk⟩ := List.mem_map.mp h
  subst hk
  exact ⟨r, hr, rfl, rfl⟩

lemma mem_author_expertise_elim {store : List AuthorTopic} {refined : List RefinedTopic}
    {tid : Option Int} {mtc lim : Nat} {rec : Rec}
    (h : rec ∈ get_author_expertise store refined tid mtc lim) :
    ∃ a ∈ store, rec = authorRecord refined a := by
  unfold get_author_expertise at h
  obtain ⟨a, ha, hrec⟩ := List.mem_map.mp h
  have h1 := List.take_subset _ _ ha
  rw [(List.perm_insertionSort authorOrder _).mem_iff] at h1
  refine ⟨a, ?_, hrec.symm⟩
  rcases tid with _ | t
  · exact List.mem_of_mem_filter h1
  · dsimp only at h1
    by_cases ht : t ≠ 0
    · rw [if_pos ht] at h1
      exact List.mem_of_mem_filter (List.mem_of_mem_filter h1)
    · rw [if_neg ht] at h1
      exact List.mem_of_mem_filter h1

/-!
## Claim C4
-/

/-- C4 counterexample: `get_author_expertise` applies no outlier filter, so a
stored author-topic rollup row with the sentinel `topic_id = -1` is returned
to the caller, contradicting the claim that the sentinel contributes to no
`author_expertise` output. -/
theorem author_expertise_outlier_cex :
    (get_author_expertise [atOutlier] [] none 5 100).map (fun r => recGet r "topic_id") =
      [some (Val.vInt (-1))] := by
  with_unfolding_all decide

/-- C4 as amended: an assignment with the outlier sentinel `topic_id = -1`
contributes to no EvolutionBucket row (neither the persisted rows written by
`compute_range` starting from an empty store, nor the live-computed rows) and
to no theme-breakdown entry; `get_author_expertise`, however, applies no
outlier filter and returns whatever rows the author-topic store holds, as the
counterexample shows. -/
theorem outlier_exclusion_except_author_expertise :
    (∀ (db : DB) (s e : Nat) (r : EvoRow), r ∈ computeRange db [] s e →
      r.topic_id ≠ -1) ∧
    (∀ (db : DB) (cutoff : Nat) (tids : Option (List Int)) (ming : Option ℚ)
      (r : LiveRow), r ∈ liveRows db cutoff tids ming → r.topic_id ≠ -1) ∧
    (∀ (colls : List TweetCollection) (db : DB) (themes : List Theme)
      (refined : List RefinedTopic) (tid : Option Int) (sd ed : Option Nat)
      (th : String) (td : ThemeData) (info : TopicInfo),
      (th, td) ∈ get_topic_theme_analytics colls db themes refined tid sd ed →
      info ∈ td.topics → info.topic_id ≠ -1) := by
  refine ⟨?_, ?_, ?_⟩
  · intro db s e r hr
    exact computeRangeFuel_invariant db (fun r => r.topic_id ≠ -1) 0 e
      (fun S s' e' T d _ _ hk => (mem_bucketKeys hk).1)
      (rangeFuel s e) [] s e (by omega) le_rfl (by simp) r hr
  · intro db cutoff tids ming r hr
    obtain ⟨k, hk, rfl⟩ := mem_liveRows_elim hr
    obtain ⟨x, hx, hx1, _⟩ := mem_keysOf.mp hk
    have := (mem_lrows.mp hx).2.1.1
    exact hx1 ▸ this
  · intro colls db themes refined tid sd ed th td info hmem hinfo
    obtain ⟨k, hk, rfl⟩ := mem_theme_analytics_elim hmem hinfo
    obtain ⟨r, hr, _, hr2⟩ := mem_themeKeys hk
    have := (themeRows_subset colls db themes tid sd ed r hr).2
    exact hr2 ▸ this

/-- C4 witness: the amended theorem applied to the concrete dataset `dbC1`:
the hour-0 bucket row of topic 1 (which is a member of the computed store)
does not carry the sentinel topic. -/
theorem outlier_exclusion_witness :
    (mkRow dbC1 [] 0 7200 1 0).topic_id ≠ -1 :=
  outlier_exclusion_except_author_expertise.1 dbC1 0 7200
    (mkRow dbC1 [] 0 7200 1 0) (by with_unfolding_all decide)

/-!
## Claim C7
-/

/-- C7 counterexample: for the unrefined topic 42, the single record returned
by `get_author_expertise` renders the fallback name `"Topic 42"` but carries
no `monitoring_priority` key at all, contradicting the claim that it carries
priority `"medium"`. -/
theorem author_priority_missing_cex :
    (get_author_expertise [at42] [] none 5 100).map
      (fun r => (recGet r "topic_name", recGet r "monitoring_priority")) =
      [(some (Val.vStr "Topic 42"), none)] := by
  with_unfolding_all decide

/-- C7 as amended: for a topic id `K` with no RefinedTopic row, every
theme-breakdown entry mentioning `K` carries the synthesized name
`"Topic K"` and the fallback priority `"medium"`; every `author_expertise`
record mentioning `K` carries the synthesized name `"Topic K"` but contains
no monitoring-priority field at all. -/
theorem fallback_labeling (refined : List RefinedTopic) (K : Int)
    (hK : refined.find? (fun r => r.topic_id == K) = none) :
    (∀ (colls : List TweetCollection) (db : DB) (themes : List Theme)
      (tid : Option Int) (sd ed : Option Nat) (th : String) (td : ThemeData)
      (info : TopicInfo),
      (th, td) ∈ get_topic_theme_analytics colls db themes refined tid sd ed →
      info ∈ td.topics → info.topic_id = K →
      info.refined_name = "Topic " ++ toString K ∧
        info.monitoring_priority = "medium") ∧
    (∀ (store : List AuthorTopic) (tid : Option Int) (mtc lim : Nat) (rec : Rec),
      rec ∈ get_author_expertise store refined tid mtc lim →
      recGet rec "topic_id" = some (Val.vInt K) →
      recGet rec "topic_name" = some (Val.vStr ("Topic " ++ toString K)) ∧
        recGet rec "monitoring_priority" = none) := by
  constructor
  · intro colls db themes tid sd ed th td info hmem hinfo hid
    obtain ⟨k, hk, rfl⟩ := mem_theme_analytics_elim hmem hinfo
    have hkK : k.2 = K := hid
    subst hkK
    unfold mkTopicInfo refinedName
    rw [hK]
    exact ⟨rfl, rfl⟩
  · intro store tid mtc lim rec hmem hid
    obtain ⟨a, _, rfl⟩ := mem_author_expertise_elim hmem
    have haK : a.topic_id = K := by
      have : recGet (authorRecord refined a) "topic_id" = some (Val.vInt a.topic_id) := rfl
      rw [this] at hid
      injection hid with hv
      injection hv
    constructor
    · have : recGet (authorRecord refined a) "topic_name" =
          some (Val.vStr (refinedName refined a.topic_id)) := rfl
      rw [this, haK]
      unfold refinedName
      rw [hK]
    · rfl

/-- C7 witness: the amended theorem applied at topic 42 with an empty
RefinedTopic table and the concrete author-topic store `[at42]`. -/
theorem fallback_labeling_witness :
    recGet (authorRecord [] at42) "topic_name" =
      some (Val.vStr ("Topic " ++ toString (42 : Int))) ∧
    recGet (authorRecord [] at42) "monitoring_priority" = none :=
  (fallback_labeling [] 42 rfl).2 [at42] none 5 100 (authorRecord [] at42)
    (by with_unfolding_all decide) (by with_unfolding_all decide)

/-!
## Claim C8
-/

lemma batchesProcessed_sound (maxCost : ℚ) :
    ∀ (cs : List ℚ) (acc : ℚ) (j : Nat), j < batchesProcessed maxCost acc cs →
      acc + (cs.take j).sum < maxCost := by
  intro cs
  induction cs with
  | nil => intro acc j h; rw [batchesProcessed] at h; omega
  | cons c rest ih =>
    intro acc j h
    rw [batchesProcessed] at h
    by_cases hm : maxCost ≤ acc
    · rw [if_pos hm] at h; omega
    · rw [if_neg hm] at h
      cases j with
      | zero => simpa using lt_of_not_le hm
      | succ j' =>
        have := ih (acc + c) j' (by omega)
        rw [List.take_succ_cons, List.sum_cons, ← add_assoc]
        exact this

lemma batchesProcessed_halt (maxCost : ℚ) :
    ∀ (cs : List ℚ) (acc : ℚ), batchesProcessed maxCost acc cs < cs.length →
      maxCost ≤ acc + (cs.take (batchesProcessed maxCost acc cs)).sum := by
  intro cs
  induction cs with
  | nil => intro acc h; rw [batchesProcessed] at h; simp at h
  | cons c rest ih =>
    intro acc h
    rw [batchesProcessed] at h ⊢
    by_cases hm : maxCost ≤ acc
    · rw [if_pos hm] at h ⊢
      simpa using hm
    · rw [if_neg hm] at h ⊢
      have := ih (acc + c) (by rw [List.length_cons] at h; omega)
      rw [List.take_succ_cons, List.sum_cons, ← add_assoc]
      exact this

/-- C8: the batch loop of `process_topics` checks the accumulated cost
against `MAX_COST_PER_RUN` before each batch: every batch that is sent was
started strictly below the limit; if any batch was left unsent, the limit had
been reached by then (a graceful break, not an error — the function is
total); and concretely, with limit 1.00 and per-batch cost 0.60, exactly two
batches are processed and the third is never started. -/
theorem cost_limit_halts_gracefully (maxCost : ℚ) (cs : List ℚ) :
    (∀ j, j < batchesProcessed maxCost 0 cs → prefixCost cs j < maxCost) ∧
    (batchesProcessed maxCost 0 cs < cs.length →
      maxCost ≤ prefixCost cs (batchesProcessed maxCost 0 cs)) ∧
    batchesProcessed 1 0 [6/10, 6/10, 6/10] = 2 := by
  refine ⟨fun j hj => ?_, fun h => ?_, by with_unfolding_all decide⟩
  · have := batchesProcessed_sound maxCost cs 0 j hj
    rw [prefixCost]
    linarith
  · have := batchesProcessed_halt maxCost cs 0 h
    rw [prefixCost]
    linarith

/-- C8 witness: the theorem applied at the claim's concrete numbers — the
second batch was sent below the limit, and exactly two of the three batches
were processed. -/
theorem cost_limit_halts_witness :
    prefixCost [6/10, 6/10, 6/10] 1 < 1 ∧
    batchesProcessed 1 0 [6/10, 6/10, 6/10] = 2 :=
  ⟨(cost_limit_halts_gracefully 1 [6/10, 6/10, 6/10]).1 1
      (by rw [(cost_limit_halts_gracefully 1 [6/10, 6/10, 6/10]).2.2]; omega),
    (cost_limit_halts_gracefully 1 [6/10, 6/10, 6/10]).2.2⟩

/-!
## Claim C9
-/

/-- C9 counterexample: with an empty `themes` table, querying the breakdown
for `theme_id = 5` raises nothing and returns exactly the analytics computed
with no theme filter at all — a non-empty result (theme `ThemeA` with topic
1) — instead of surfacing a not-found signal. -/
theorem theme_not_found_silent_cex :
    get_topic_theme_analytics collsC9 dbC9 [] [] (some 5) none none =
      get_topic_theme_analytics collsC9 dbC9 [] [] none none none ∧
    (get_topic_theme_analytics collsC9 dbC9 [] [] (some 5) none none).map Prod.fst =
      ["ThemeA"] :=
  ⟨by with_unfolding_all decide, by with_unfolding_all decide⟩

/-- C9 as amended: when `theme_id` matches no Theme row,
`get_topic_theme_analytics` silently drops the theme filter and returns the
breakdown computed as if the filter were absent; no not-found signal exists
on this path. -/
theorem theme_filter_silently_dropped (colls : List TweetCollection) (db : DB)
    (themes : List Theme) (refined : List RefinedTopic) (i : Int)
    (sd ed : Option Nat) (hi : themes.find? (fun th => th.id == i) = none) :
    get_topic_theme_analytics colls db themes refined (some i) sd ed =
      get_topic_theme_analytics colls db themes refined none sd ed := by
  have hpred : ∀ c, themeFilterPred themes (some i) c = themeFilterPred themes none c := by
    intro c
    unfold themeFilterPred
    dsimp only
    by_cases h0 : i ≠ 0
    · rw [if_pos h0, hi]
    · rw [if_neg h0]
  have hrows : themeRows colls db themes (some i) sd ed =
      themeRows colls db themes none sd ed := by
    unfold themeRows
    simp only [hpred]
  unfold get_topic_theme_analytics
  rw [hrows]

/-- C9 witness: the amended theorem applied to the concrete dataset, with the
missing theme id 5 and an empty theme table. -/
theorem theme_filter_silently_dropped_witness :
    get_topic_theme_analytics collsC9 dbC9 [] [] (some 5) none none =
      get_topic_theme_analytics collsC9 dbC9 [] [] none none none :=
  theme_filter_silently_dropped collsC9 dbC9 [] [] 5 none none rfl

/-!
## Claim C10
-/

/-- C10: the two paths of `evolution_trends` produce records of different
shapes.  Every record of the live-computation path (taken exactly when the
persisted store is empty) contains neither a `new_authors` nor a
`top_keywords` key, while every record of the persisted-store path contains
both; so the caller can distinguish the paths from the record fields alone. -/
theorem trend_record_shapes (db : DB) (store : List EvoRow)
    (refined : List RefinedTopic) (tids : Option (List Int)) (hours : Nat)
    (ming : Option ℚ) (now : Nat) (rec : Rec) :
    (store.length = 0 →
      rec ∈ get_topic_evolution_trends db store refined tids hours ming now →
      recGet rec "new_authors" = none ∧ recGet rec "top_keywords" = none) ∧
    (store.length ≠ 0 →
      rec ∈ get_topic_evolution_trends db store refined tids hours ming now →
      (∃ n, recGet rec "new_authors" = some (Val.vNat n)) ∧
        (∃ kw, recGet rec "top_keywords" = some (Val.vKw kw))) := by
  constructor
  · intro hlen hmem
    unfold get_topic_evolution_trends at hmem
    rw [if_pos hlen] at hmem
    unfold computeEvolutionMetrics at hmem
    obtain ⟨r, _, rfl⟩ := List.mem_map.mp hmem
    exact ⟨rfl, rfl⟩
  · intro hlen hmem
    unfold get_topic_evolution_trends at hmem
    rw [if_neg hlen] at hmem
    obtain ⟨e, _, rfl⟩ := List.mem_map.mp hmem
    exact ⟨⟨e.new_authors, rfl⟩, ⟨e.top_keywords, rfl⟩⟩

/-- C10 witness: the theorem applied on both paths at concrete inputs — the
live path over `dbC9` with an empty store, and the persisted path over the
one-row store `[evoW]`. -/
theorem trend_record_shapes_witness :
    (recGet (liveRecord [] (mkLiveRow dbC9 0 none 1 0)) "new_authors" = none ∧
      recGet (liveRecord [] (mkLiveRow dbC9 0 none 1 0)) "top_keywords" = none) ∧
    ((∃ n, recGet (persistedRecord [] evoW) "new_authors" = some (Val.vNat n)) ∧
      (∃ kw, recGet (persistedRecord [] evoW) "top_keywords" = some (Val.vKw kw))) :=
  ⟨(trend_record_shapes dbC9 [] [] none 1 none 3600
      (liveRecord [] (mkLiveRow dbC9 0 none 1 0))).1 rfl
      (by
        have h : get_topic_evolution_trends dbC9 [] [] none 1 none 3600 =
            [liveRecord [] (mkLiveRow dbC9 0 none 1 0)] := by with_unfolding_all rfl
        rw [h]
        exact List.mem_singleton.mpr rfl),
   (trend_record_shapes dbC9 [evoW] [] none 1 none 3600
      (persistedRecord [] evoW)).2 (by decide)
      (by
        have h : get_topic_evolution_trends dbC9 [evoW] [] none 1 none 3600 =
            [persistedRecord [] evoW] := by with_unfolding_all rfl
        rw [h]
        exact List.mem_singleton.mpr rfl)⟩

/-!
## Claim C5
-/

lemma mem_postTimes {db : DB} {T : Int} {a : String} {t : Nat} :
    t ∈ postTimes db T a ↔
      ∃ r ∈ joined db, r.1.topic_id = T ∧ r.2.author_id = a ∧ r.2.created_at = t := by
  unfold postTimes
  constructor
  · intro h
    obtain ⟨r, hr, hrt⟩ := List.mem_map.mp h
    rw [List.mem_filter] at hr
    have := of_decide_eq_true hr.2
    exact ⟨r, hr.1, this.1, this.2, hrt⟩
  · rintro ⟨r, hr, h1, h2, h3⟩
    exact List.mem_map.mpr ⟨r, List.mem_filter.mpr ⟨hr, decide_eq_true ⟨h1, h2⟩⟩, h3⟩

lemma hasEarlierPost_iff {db : DB} {T : Int} {a : String} {c : Nat} :
    hasEarlierPost db T a c = true ↔
      ∃ r ∈ joined db, r.1.topic_id = T ∧ r.2.author_id = a ∧ r.2.created_at < c := by
  unfold hasEarlierPost
  rw [List.any_eq_true]
  constructor
  · rintro ⟨r, hr, hd⟩
    exact ⟨r, hr, of_decide_eq_true hd⟩
  · rintro ⟨r, hr, h⟩
    exact ⟨r, hr, decide_eq_true h⟩

lemma mem_newAuthorsList {db : DB} {s e : Nat} {T : Int} {d : Nat} {a : String} :
    a ∈ newAuthorsList db s e T d ↔
      ∃ r ∈ wrows db s e, r.1.topic_id = T ∧ hourBucket r.2.created_at = d ∧
        hasEarlierPost db T r.2.author_id d = false ∧ r.2.author_id = a := by
  unfold newAuthorsList
  rw [List.mem_dedup]
  constructor
  · intro h
    obtain ⟨r, hr, hra⟩ := List.mem_map.mp h
    rw [List.mem_filter, Bool.and_eq_true] at hr
    have h1 := of_decide_eq_true hr.2.1
    have h2 := Bool.not_eq_true' .. ▸ hr.2.2
    exact ⟨r, hr.1, h1.1, h1.2, by simpa using hr.2.2, hra⟩
  · rintro ⟨r, hr, h1, h2, h3, h4⟩
    refine List.mem_map.mpr ⟨r, List.mem_filter.mpr ⟨hr, ?_⟩, h4⟩
    rw [Bool.and_eq_true]
    exact ⟨decide_eq_true ⟨h1, h2⟩, by simpa using h3⟩

lemma dvd_add_le {x y : Nat} (hx : 3600 ∣ x) (hy : 3600 ∣ y) (h : x < y) :
    x + 3600 ≤ y := by
  obtain ⟨k, rfl⟩ := hx
  obtain ⟨l, rfl⟩ := hy
  omega

/-- C5: the `new_authors` CTE counts an author `a` under topic `T` only in
the hour bucket of `a`'s globally earliest post under `T` (the `NOT EXISTS`
subquery is unwindowed), and it does count `a` there whenever that post falls
inside the processed window — regardless of the sub-range `compute_range` is
invoked over. -/
theorem new_author_only_first_bucket (db : DB) (T : Int) (a : String) (m : Nat)
    (hT : T ≠ -1) (hm : m ∈ postTimes db T a) (hmin : ∀ t ∈ postTimes db T a, m ≤ t) :
    (∀ s e d, a ∈ newAuthorsList db s e T d → d = hourBucket m) ∧
    (∀ s e, s ≤ m → m < e → a ∈ newAuthorsList db s e T (hourBucket m)) := by
  obtain ⟨rm, hrm, hrm1, hrm2, hrm3⟩ := mem_postTimes.mp hm
  constructor
  · intro s e d hmem
    obtain ⟨r, hr, h1, h2, h3, h4⟩ := mem_newAuthorsList.mp hmem
    by_contra hne
    have hmem_t : r.2.created_at ∈ postTimes db T a :=
      mem_postTimes.mpr ⟨r, (mem_wrows.mp hr).1, h1, h4, rfl⟩
    have hle : m ≤ r.2.created_at := hmin _ hmem_t
    have hbb : hourBucket m ≤ d := h2 ▸ hourBucket_mono hle
    have hlt : hourBucket m < d := lt_of_le_of_ne hbb fun hh => hne hh.symm
    have hstep : hourBucket m + 3600 ≤ d :=
      dvd_add_le (hourBucket_dvd m) (h2 ▸ hourBucket_dvd r.2.created_at) hlt
    have hearlier : hasEarlierPost db T a d = true :=
      hasEarlierPost_iff.mpr ⟨rm, hrm, hrm1, hrm2, by
        have := lt_hourBucket_add m
        omega⟩
    rw [h4] at h3
    rw [h3] at hearlier
    cases hearlier
  · intro s e hs he
    refine mem_newAuthorsList.mpr ⟨rm, mem_wrows.mpr ⟨hrm, hrm1 ▸ hT, ?_, ?_⟩,
      hrm1, by rw [hrm3], ?_, hrm2⟩
    · omega
    · omega
    · rw [hrm2]
      by_contra hne
      rw [Bool.not_eq_false] at hne
      obtain ⟨r, hr, h1, h2, h3⟩ := hasEarlierPost_iff.mp hne
      have : r.2.created_at ∈ postTimes db T a := mem_postTimes.mpr ⟨r, hr, h1, h2, rfl⟩
      have := hmin _ this
      have := hourBucket_le m
      omega

/-- C5 witness: over `dbC5` (author `u1` first posts under topic 1 at time
600, hour bucket 0, and again in hour 2), `u1` is counted as new in the
hour-0 bucket and, by the theorem, in no later bucket. -/
theorem new_author_only_first_bucket_witness :
    "u1" ∈ newAuthorsList dbC5 0 10800 1 (hourBucket 600) ∧
    "u1" ∉ newAuthorsList dbC5 0 10800 1 7200 := by
  have h := new_author_only_first_bucket dbC5 1 "u1" 600 (by decide)
    (by with_unfolding_all decide) (by with_unfolding_all decide)
  exact ⟨h.2 0 10800 (by decide) (by decide),
    fun hmem => absurd (h.1 0 10800 7200 hmem) (by decide)⟩

/-!
## Claim C6
-/

lemma listCharLe_total : ∀ as bs : List Char, listCharLe as bs = true ∨ listCharLe bs as = true := by
  intro as
  induction as with
  | nil => intro bs; left; rfl
  | cons a as ih =>
    intro bs
    cases bs with
    | nil => right; rfl
    | cons b bs =>
      rw [listCharLe, listCharLe]
      by_cases h1 : a.toNat < b.toNat
      · left; rw [if_pos h1]
      · by_cases h2 : b.toNat < a.toNat
        · right; rw [if_pos h2]
        · rw [if_neg h1, if_neg h2, if_neg h2, if_neg h1]
          exact ih bs

lemma listCharLe_trans : ∀ as bs cs : List Char,
    listCharLe as bs = true → listCharLe bs cs = true → listCharLe as cs = true := by
  intro as
  induction as with
  | nil => intro bs cs _ _; rfl
  | cons a as ih =>
    intro bs cs h1 h2
    cases bs with
    | nil => rw [listCharLe] at h1; cases h1
    | cons b bs =>
      cases cs with
      | nil => rw [listCharLe] at h2; cases h2
      | cons c cs =>
        rw [listCharLe] at h1 h2 ⊢
        split_ifs at h1 h2 ⊢ with g1 g2 g3 g4 g5 g6
        all_goals first
          | rfl
          | omega
          | (exact ih bs cs h1 h2)
          | (cases h1)
          | (cases h2)

lemma listCharLe_antisymm : ∀ as bs : List Char,
    listCharLe as bs = true → listCharLe bs as = true → as = bs := by
  intro as
  induction as with
  | nil =>
    intro bs _ h2
    cases bs with
    | nil => rfl
    | cons b bs => rw [listCharLe] at h2; cases h2
  | cons a as ih =>
    intro bs h1 h2
    cases bs with
    | nil => rw [listCharLe] at h1; cases h1
    | cons b bs =>
      rw [listCharLe] at h1 h2
      by_cases g1 : a.toNat < b.toNat
      · rw [if_neg (by omega : ¬b.toNat < a.toNat), if_pos g1] at h2
        cases h2
      · by_cases g2 : b.toNat < a.toNat
        · rw [if_neg g1, if_pos g2] at h1
          cases h1
        · rw [if_neg g1, if_neg g2] at h1
          rw [if_neg g2, if_neg g1] at h2
          have hab : a = b := Char.ext (UInt32.ext (by
            have e1 : a.toNat = a.val.toNat := rfl
            have e2 : b.toNat = b.val.toNat := rfl
            omega))
          rw [hab, ih bs h1 h2]

lemma strLeR_total (x y : String) : strLeR x y ∨ strLeR y x := by
  unfold strLeR strLe
  exact listCharLe_total x.data y.data

lemma strLeR_trans {x y z : String} (h1 : strLeR x y) (h2 : strLeR y z) : strLeR x z :=
  listCharLe_trans x.data y.data z.data h1 h2

lemma strLeR_antisymm {x y : String} (h1 : strLeR x y) (h2 : strLeR y x) : x = y := by
  have h := listCharLe_antisymm x.data y.data h1 h2
  cases x
  cases y
  exact congrArg String.mk h

lemma mem_take_sorted :
    ∀ (l : List String) (n : Nat) (w : String), l.Sorted strLeR → l.Nodup →
      (w ∈ l.take n ↔
        w ∈ l ∧ (l.filter fun v => strLe v w && v != w).length < n) := by
  intro l
  induction l with
  | nil => intro n w _ _; simp
  | cons x xs ih =>
    intro n w hs hnd
    rw [List.sorted_cons] at hs
    rw [List.nodup_cons] at hnd
    cases n with
    | zero => simp
    | succ n =>
      rw [List.take_succ_cons]
      by_cases hw : w = x
      · subst hw
        constructor
        · intro _
          refine ⟨List.mem_cons_self _ _, ?_⟩
          have hnil : (w :: xs).filter (fun v => strLe v w && v != w) = [] := by
            rw [List.filter_eq_nil_iff]
            intro v hv hcon
            rw [Bool.and_eq_true] at hcon
            rcases List.mem_cons.mp hv with rfl | hv2
            · simp at hcon
            · have hvw : v = w := strLeR_antisymm hcon.1 (hs.1 v hv2)
              subst hvw
              exact hnd.1 hv2
          rw [hnil]
          simp
        · intro _
          exact List.mem_cons_self _ _
      · have hiff := ih n w hs.2 hnd.2
        rw [List.filter_cons]
        by_cases hxw : (strLe x w && x != w) = true
        · rw [if_pos hxw, List.length_cons]
          constructor
          · intro hmem
            rcases List.mem_cons.mp hmem with rfl | hmem2
            · exact absurd rfl hw
            · obtain ⟨hmm, hll⟩ := hiff.mp hmem2
              exact ⟨List.mem_cons_of_mem _ hmm, by omega⟩
          · rintro ⟨hmem, hlen⟩
            rcases List.mem_cons.mp hmem with rfl | hmem2
            · exact absurd rfl hw
            · exact List.mem_cons_of_mem _ (hiff.mpr ⟨hmem2, by omega⟩)
        · rw [if_neg hxw]
          constructor
          · intro hmem
            rcases List.mem_cons.mp hmem with rfl | hmem2
            · exact absurd rfl hw
            · obtain ⟨hmm, hll⟩ := hiff.mp hmem2
              exact ⟨List.mem_cons_of_mem _ hmm, by omega⟩
          · rintro ⟨hmem, hlen⟩
            rcases List.mem_cons.mp hmem with rfl | hmem2
            · exact absurd rfl hw
            · exfalso
              have hxle : strLeR x w := hs.1 w hmem2
              have hbne : (x != w) = true := by
                rw [bne_iff_ne]
                exact fun hh => hw hh.symm
              rw [Bool.and_eq_true] at hxw
              exact hxw ⟨hxle, hbne⟩

/-- C6 counterexample: in the bucket of `dbC6` the token `zzzz` occurs three
times and each of ten lexicographically smaller tokens once, yet
`top_keywords` is the first ten distinct tokens in alphabetical order —
`zzzz`, the unique most frequent token, is dropped, contradicting the
frequency-ranking claim. -/
theorem top_keywords_not_frequency_cex :
    topKeywords dbC6 0 3600 1 0 =
      some ["aaaa", "bbbb", "cccc", "dddd", "eeee", "ffff", "gggg", "hhhh",
        "iiii", "jjjj"] ∧
    "zzzz" ∉ ["aaaa", "bbbb", "cccc", "dddd", "eeee", "ffff", "gggg", "hhhh",
        "iiii", "jjjj"] ∧
    (bucketWords dbC6 0 3600 1 0).count "zzzz" = 3 ∧
    ∀ w ∈ ["aaaa", "bbbb", "cccc", "dddd", "eeee", "ffff", "gggg", "hhhh",
        "iiii", "jjjj"], (bucketWords dbC6 0 3600 1 0).count w = 1 :=
  ⟨by with_unfolding_all decide, by decide, by with_unfolding_all decide,
    by with_unfolding_all decide⟩

/-- C6 as amended: `top_keywords` for a bucket is the first 10 of the
lexicographically sorted distinct qualifying tokens — lower-cased,
punctuation-stripped, longer than 3 characters and not stopwords — with `{}`
(here `none`) exactly when no token qualifies.  The result is sorted,
duplicate-free, of length at most 10, and contains a token `w` iff `w`
qualifies and fewer than 10 distinct qualifying tokens precede it
alphabetically.  Frequency plays no role. -/
theorem top_keywords_lexicographic (db : DB) (s e : Nat) (T : Int) (d : Nat) :
    (topKeywords db s e T d = none ↔ bucketWords db s e T d = []) ∧
    (∀ l, topKeywords db s e T d = some l →
      l.Sorted strLeR ∧ l.Nodup ∧ l.length ≤ 10 ∧
      ∀ w, w ∈ l ↔ (w ∈ bucketWords db s e T d ∧
        (((bucketWords db s e T d).dedup.filter fun v => strLe v w && v != w).length
          < 10))) := by
  letI : IsTotal String strLeR := ⟨strLeR_total⟩
  letI : IsTrans String strLeR := ⟨fun a b c h1 h2 => strLeR_trans h1 h2⟩
  have hperm : (topWords db s e T d).Perm (bucketWords db s e T d).dedup :=
    List.perm_insertionSort strLeR _
  have hsorted : (topWords db s e T d).Sorted strLeR :=
    List.sorted_insertionSort strLeR _
  have hnodup : (topWords db s e T d).Nodup :=
    hperm.nodup_iff.mpr (List.nodup_dedup _)
  constructor
  · unfold topKeywords
    by_cases hnil : topWords db s e T d = []
    · rw [if_pos hnil]
      constructor
      · intro _
        have h1 : (bucketWords db s e T d).dedup = [] :=
          (hnil ▸ hperm : ([] : List String).Perm _).symm.eq_nil
        exact (List.dedup_eq_nil _).mp h1
      · intro _; rfl
    · rw [if_neg hnil]
      constructor
      · intro h; cases h
      · intro hb
        exfalso
        apply hnil
        have hded : (bucketWords db s e T d).dedup = [] := by rw [hb]; rfl
        show List.insertionSort strLeR (bucketWords db s e T d).dedup = []
        rw [hded]
        rfl
  · intro l hl
    unfold topKeywords at hl
    by_cases hnil : topWords db s e T d = []
    · rw [if_pos hnil] at hl; cases hl
    · rw [if_neg hnil] at hl
      injection hl with hl
      subst hl
      refine ⟨List.Pairwise.sublist (List.take_sublist _ _) hsorted,
        List.Nodup.sublist (List.take_sublist _ _) hnodup,
        List.length_take_le _ _, ?_⟩
      intro w
      rw [mem_take_sorted _ 10 w hsorted hnodup]
      constructor
      · rintro ⟨hmem, hlen⟩
        refine ⟨List.mem_dedup.mp (hperm.mem_iff.mp hmem), ?_⟩
        rwa [(hperm.filter _).length_eq] at hlen
      · rintro ⟨hmem, hlen⟩
        refine ⟨hperm.mem_iff.mpr (List.mem_dedup.mpr hmem), ?_⟩
        rwa [← (hperm.filter _).length_eq] at hlen

/-- C6 witness: the amended theorem applied to `dbC6`: its alphabetical
first-ten keyword list is sorted, duplicate-free and of length at most 10. -/
theorem top_keywords_lexicographic_witness :
    (["aaaa", "bbbb", "cccc", "dddd", "eeee", "ffff", "gggg", "hhhh", "iiii",
      "jjjj"] : List String).Sorted strLeR ∧
    (["aaaa", "bbbb", "cccc", "dddd", "eeee", "ffff", "gggg", "hhhh", "iiii",
      "jjjj"] : List String).Nodup ∧
    (["aaaa", "bbbb", "cccc", "dddd", "eeee", "ffff", "gggg", "hhhh", "iiii",
      "jjjj"] : List String).length ≤ 10 := by
  have h := (top_keywords_lexicographic dbC6 0 3600 1 0).2
    ["aaaa", "bbbb", "cccc", "dddd", "eeee", "ffff", "gggg", "hhhh", "iiii",
      "jjjj"] (by with_unfolding_all decide)
  exact ⟨h.1, h.2.1, h.2.2.1⟩

/-!
## Window-containment lemmas: a bucket wholly inside a batch window sees
exactly its raw rows
-/

lemma find?_congr {α : Type} {l : List α} {p q : α → Bool}
    (h : ∀ x ∈ l, p x = q x) : l.find? p = l.find? q := by
  induction l with
  | nil => rfl
  | cons x xs ih =>
    rw [List.find?_cons, List.find?_cons, h x (List.mem_cons_self _ _)]
    cases q x with
    | true => rfl
    | false => exact ih fun y hy => h y (List.mem_cons_of_mem _ hy)

lemma filter_filter_congr {α : Type} {l : List α} {p q p' q' : α → Bool}
    (h : ∀ x ∈ l, (q x && p x) = (q' x && p' x)) :
    (l.filter q).filter p = (l.filter q').filter p' := by
  rw [List.filter_filter, List.filter_filter]
  exact List.filter_congr fun x hx => by
    rw [Bool.and_comm (p x), Bool.and_comm (p' x)]
    exact h x hx

lemma bucketRows_eq_rawBucket (db : DB) {s e : Nat} (T : Int) {d : Nat}
    (h1 : s ≤ d) (h2 : d + 3600 ≤ e) :
    bucketRows db s e T d = rawBucket db T d := by
  unfold bucketRows rawBucket rowsAt wrows rawRows
  apply filter_filter_congr
  intro r _
  by_cases hp : r.1.topic_id = T ∧ hourBucket r.2.created_at = d
  · have ht1 : d ≤ r.2.created_at := hp.2 ▸ hourBucket_le _
    have ht2 : r.2.created_at < d + 3600 := hp.2 ▸ lt_hourBucket_add _
    by_cases hne : r.1.topic_id ≠ -1
    · have e1 : decide (r.1.topic_id ≠ -1 ∧ s ≤ r.2.created_at ∧ r.2.created_at < e) = true :=
        decide_eq_true ⟨hne, by omega, by omega⟩
      have e2 : decide (r.1.topic_id ≠ -1) = true := decide_eq_true hne
      rw [e1, e2]
    · have e1 : decide (r.1.topic_id ≠ -1 ∧ s ≤ r.2.created_at ∧ r.2.created_at < e) = false :=
        decide_eq_false fun hc => hne hc.1
      have e2 : decide (r.1.topic_id ≠ -1) = false := decide_eq_false hne
      rw [e1, e2]
  · have e0 : decide (r.1.topic_id = T ∧ hourBucket r.2.created_at = d) = false :=
      decide_eq_false hp
    rw [e0, Bool.and_false, Bool.and_false]

lemma newAuthorsList_window (db : DB) {s e : Nat} (T : Int) {d : Nat}
    (h1 : s ≤ d) (h2 : d + 3600 ≤ e) :
    newAuthorsList db s e T d = newAuthorsList db d (d + 3600) T d := by
  unfold newAuthorsList wrows
  congr 2
  apply filter_filter_congr
  intro r _
  by_cases hp : r.1.topic_id = T ∧ hourBucket r.2.created_at = d
  · have ht1 : d ≤ r.2.created_at := hp.2 ▸ hourBucket_le _
    have ht2 : r.2.created_at < d + 3600 := hp.2 ▸ lt_hourBucket_add _
    by_cases hne : r.1.topic_id ≠ -1
    · have e1 : decide (r.1.topic_id ≠ -1 ∧ s ≤ r.2.created_at ∧ r.2.created_at < e) = true :=
        decide_eq_true ⟨hne, by omega, by omega⟩
      have e2 : decide (r.1.topic_id ≠ -1 ∧ d ≤ r.2.created_at ∧
          r.2.created_at < d + 3600) = true :=
        decide_eq_true ⟨hne, ht1, ht2⟩
      rw [e1, e2]
    · have e1 : decide (r.1.topic_id ≠ -1 ∧ s ≤ r.2.created_at ∧ r.2.created_at < e) = false :=
        decide_eq_false fun hc => hne hc.1
      have e2 : decide (r.1.topic_id ≠ -1 ∧ d ≤ r.2.created_at ∧
          r.2.created_at < d + 3600) = false :=
        decide_eq_false fun hc => hne hc.1
      rw [e1, e2]
  · have e0 : decide (r.1.topic_id = T ∧ hourBucket r.2.created_at = d) = false :=
      decide_eq_false hp
    rw [e0, Bool.false_and, Bool.and_false, Bool.and_false]

lemma topKeywords_window (db : DB) {s e : Nat} (T : Int) {d : Nat}
    (h1 : s ≤ d) (h2 : d + 3600 ≤ e) :
    topKeywords db s e T d = topKeywords db d (d + 3600) T d := by
  unfold topKeywords topWords bucketWords
  rw [bucketRows_eq_rawBucket db T h1 h2,
    bucketRows_eq_rawBucket db T (le_refl d) (le_refl (d + 3600))]

lemma dropG_mkRow_window (db : DB) (S : List EvoRow) {s e : Nat} (T : Int) {d : Nat}
    (h1 : s ≤ d) (h2 : d + 3600 ≤ e) :
    dropG (mkRow db S s e T d) = dropG (rawRow db T d) := by
  unfold dropG rawRow mkRow tweetCount uniqueAuthors newAuthors avgProbability
    totalEngagement viralTweets
  rw [bucketRows_eq_rawBucket db T h1 h2,
    bucketRows_eq_rawBucket db T (le_refl d) (le_refl (d + 3600)),
    newAuthorsList_window db T h1 h2, topKeywords_window db T h1 h2]

lemma rawRow_tweet_count (db : DB) (T : Int) (d : Nat) :
    (rawRow db T d).tweet_count = rawCount db T d := by
  unfold rawRow mkRow tweetCount rawCount
  rw [bucketRows_eq_rawBucket db T (le_refl d) (le_refl (d + 3600))]

lemma mem_bucketKeys_iff (db : DB) {s e : Nat} (hs : 3600 ∣ s) (he : 3600 ∣ e)
    (T : Int) (d : Nat) :
    (T, d) ∈ bucketKeys db s e ↔ rawBucket db T d ≠ [] ∧ s ≤ d ∧ d < e := by
  constructor
  · intro h
    obtain ⟨r, hr, h1, h2⟩ := mem_keysOf.mp h
    rw [mem_wrows] at hr
    have hd1 : s ≤ d := by
      have := hourBucket_mono hr.2.2.1
      rw [hourBucket_eq_self hs] at this
      omega
    have hd2 : d < e := by
      have := hourBucket_le r.2.created_at
      omega
    refine ⟨?_, hd1, hd2⟩
    intro hnil
    have hmem : r ∈ rawBucket db T d := by
      unfold rawBucket rowsAt rawRows
      rw [List.mem_filter, List.mem_filter]
      exact ⟨⟨hr.1, decide_eq_true hr.2.1⟩, decide_eq_true ⟨h1, h2⟩⟩
    rw [hnil] at hmem
    cases hmem
  · rintro ⟨hnil, hd1, hd2⟩
    obtain ⟨r, hr⟩ := List.exists_mem_of_ne_nil _ hnil
    unfold rawBucket rowsAt rawRows at hr
    rw [List.mem_filter, List.mem_filter] at hr
    have h1 := of_decide_eq_true hr.1.2
    have h2 := of_decide_eq_true hr.2
    have hdvd : (3600 : Nat) ∣ d := h2.2 ▸ hourBucket_dvd _
    have ht1 : d ≤ r.2.created_at := h2.2 ▸ hourBucket_le _
    have ht2 : r.2.created_at < d + 3600 := h2.2 ▸ lt_hourBucket_add _
    have hde : d + 3600 ≤ e := dvd_add_le hdvd he hd2
    apply mem_keysOf.mpr
    exact ⟨r, mem_wrows.mpr ⟨hr.1.1, h1, by omega, by omega⟩, h2.1, h2.2⟩

lemma dvd_min {a b : Nat} (ha : 3600 ∣ a) (hb : 3600 ∣ b) : 3600 ∣ min a b := by
  rcases Nat.le_total a b with h | h
  · rw [Nat.min_eq_left h]; exact ha
  · rw [Nat.min_eq_right h]; exact hb

lemma mem_emittedKeys_iff (db : DB) :
    ∀ f cur fin, 3600 ∣ cur → 3600 ∣ fin → rangeFuel cur fin ≤ f →
      ∀ (T : Int) (d h : Nat),
      ((T, d, h) ∈ emittedKeys db f cur fin ↔
        rawBucket db T d ≠ [] ∧ cur ≤ d ∧ d < fin ∧ h = hourOfDay d) := by
  intro f
  induction f with
  | zero =>
    intro cur fin _ _ hf T d h
    have : fin ≤ cur := by unfold rangeFuel at hf; omega
    rw [emittedKeys]
    simp only [List.not_mem_nil, false_iff]
    rintro ⟨_, h1, h2, _⟩
    omega
  | succ f ih =>
    intro cur fin hcur hfin hf T d h
    rw [emittedKeys]
    by_cases hc : cur < fin
    · rw [if_pos hc, List.mem_append]
      have hbe : 3600 ∣ min (cur + 86400) fin := dvd_min (by omega) hfin
      have hihyp := ih (min (cur + 86400) fin) fin hbe hfin
        (by unfold rangeFuel at *; omega) T d h
      constructor
      · rintro (hb | hr)
        · obtain ⟨k, hk, hkeq⟩ := List.mem_map.mp hb
          have hT : k.1 = T := congrArg Prod.fst hkeq
          have hd : k.2 = d := congrArg (fun p => p.2.1) hkeq
          have hh : hourOfDay k.2 = h := congrArg (fun p => p.2.2) hkeq
          subst hT hd
          have := (mem_bucketKeys_iff db hcur hbe k.1 k.2).mp hk
          exact ⟨this.1, this.2.1, by omega, hh.symm⟩
        · have := hihyp.mp hr
          refine ⟨this.1, by omega, this.2.2.1, this.2.2.2⟩
      · rintro ⟨hnil, hd1, hd2, hh⟩
        by_cases hdb : d < min (cur + 86400) fin
        · left
          refine List.mem_map.mpr ⟨(T, d),
            (mem_bucketKeys_iff db hcur hbe T d).mpr ⟨hnil, hd1, hdb⟩, ?_⟩
          rw [hh]
        · right
          exact hihyp.mpr ⟨hnil, by omega, hd2, hh⟩
    · rw [if_neg hc]
      simp only [List.not_mem_nil, false_iff]
      rintro ⟨_, h1, h2, _⟩
      omega

lemma rawBucket_dvd_of_ne_nil {db : DB} {T : Int} {d : Nat}
    (h : rawBucket db T d ≠ []) : 3600 ∣ d := by
  obtain ⟨r, hr⟩ := List.exists_mem_of_ne_nil _ h
  unfold rawBucket rowsAt at hr
  rw [List.mem_filter] at hr
  have h2 := of_decide_eq_true hr.2
  exact h2.2 ▸ hourBucket_dvd _

lemma findRow_computeRangeFuel_val (db : DB) :
    ∀ f S cur fin, 3600 ∣ cur → 3600 ∣ fin → rangeFuel cur fin ≤ f →
      ∀ (T : Int) (d : Nat), rawBucket db T d ≠ [] → cur ≤ d → d < fin →
      ∃ r, findRow (computeRangeFuel db f S cur fin) T d (hourOfDay d) = some r ∧
        dropG r = dropG (rawRow db T d) := by
  intro f
  induction f with
  | zero =>
    intro S cur fin _ _ hf T d _ hd1 hd2
    exfalso
    unfold rangeFuel at hf
    omega
  | succ f ih =>
    intro S cur fin hcur hfin hf T d hraw hd1 hd2
    have hc : cur < fin := by omega
    have hbe : 3600 ∣ min (cur + 86400) fin := dvd_min (by omega) hfin
    have hfuel : rangeFuel (min (cur + 86400) fin) fin ≤ f := by
      unfold rangeFuel at *; omega
    rw [computeRangeFuel, if_pos hc]
    by_cases hdb : d < min (cur + 86400) fin
    · have hddvd : 3600 ∣ d := rawBucket_dvd_of_ne_nil hraw
      have hd3600 : d + 3600 ≤ min (cur + 86400) fin := dvd_add_le hddvd hbe hdb
      rw [findRow_computeRangeFuel_of_not_emitted db f _ _ _ T d (hourOfDay d) hfuel
        (fun hmem => by
          have := (mem_emittedKeys_iff db f _ fin hbe hfin hfuel T d (hourOfDay d)).mp hmem
          omega)]
      have hk : (T, d) ∈ bucketKeys db cur (min (cur + 86400) fin) :=
        (mem_bucketKeys_iff db hcur hbe T d).mpr ⟨hraw, hd1, hdb⟩
      refine ⟨mkRow db S cur (min (cur + 86400) fin) T d, ?_, ?_⟩
      · exact findRow_upsertAll_of_mem S _ _
          (List.mem_map.mpr ⟨(T, d), hk, rfl⟩) (computeBatch_keys_nodup db S _ _)
      · exact dropG_mkRow_window db S T hd1 hd3600
    · exact ih _ _ _ hbe hfin hfuel T d hraw (by omega) hd2

lemma findRow_computeRange_empty_val (db : DB) {s e : Nat}
    (hs : 3600 ∣ s) (he : 3600 ∣ e) (T : Int) (d : Nat) :
    (findRow (computeRange db [] s e) T d (hourOfDay d)).map dropG =
      if rawBucket db T d ≠ [] ∧ s ≤ d ∧ d < e
      then some (dropG (rawRow db T d)) else none := by
  by_cases hcond : rawBucket db T d ≠ [] ∧ s ≤ d ∧ d < e
  · rw [if_pos hcond]
    obtain ⟨r, hr, hrd⟩ := findRow_computeRangeFuel_val db (rangeFuel s e) [] s e
      hs he le_rfl T d hcond.1 hcond.2.1 hcond.2.2
    rw [show computeRange db [] s e = computeRangeFuel db (rangeFuel s e) [] s e from rfl,
      hr]
    rw [Option.map_some']
    exact congrArg some hrd
  · rw [if_neg hcond]
    rw [show computeRange db [] s e = computeRangeFuel db (rangeFuel s e) [] s e from rfl,
      findRow_computeRangeFuel_of_not_emitted db (rangeFuel s e) [] s e T d (hourOfDay d)
        le_rfl (fun hmem => hcond (by
          have := (mem_emittedKeys_iff db (rangeFuel s e) s e hs he le_rfl T d
            (hourOfDay d)).mp hmem
          exact ⟨this.1, this.2.1, this.2.2.1⟩))]
    rfl

/-!
## Live-path lemmas (aligned cutoff)
-/

lemma rowsAt_lrows_eq_rawBucket (db : DB) {cutoff : Nat} (hc : 3600 ∣ cutoff)
    (T : Int) {d : Nat} (hd : cutoff ≤ d) :
    rowsAt (lrows db cutoff none) T d = rawBucket db T d := by
  unfold rowsAt lrows rawBucket rowsAt rawRows
  apply filter_filter_congr
  intro r _
  by_cases hp : r.1.topic_id = T ∧ hourBucket r.2.created_at = d
  · have ht1 : d ≤ r.2.created_at := hp.2 ▸ hourBucket_le _
    by_cases hne : r.1.topic_id ≠ -1
    · have e1 : decide (r.1.topic_id ≠ -1 ∧ cutoff ≤ r.2.created_at) = true :=
        decide_eq_true ⟨hne, by omega⟩
      have e2 : decide (r.1.topic_id ≠ -1) = true := decide_eq_true hne
      rw [e1, e2]
      rfl
    · have e1 : decide (r.1.topic_id ≠ -1 ∧ cutoff ≤ r.2.created_at) = false :=
        decide_eq_false fun hcon => hne hcon.1
      have e2 : decide (r.1.topic_id ≠ -1) = false := decide_eq_false hne
      rw [e1, e2]
      rfl
  · have e0 : decide (r.1.topic_id = T ∧ hourBucket r.2.created_at = d) = false :=
      decide_eq_false hp
    rw [e0, Bool.and_false, Bool.and_false]

lemma mem_liveKeys_iff (db : DB) {cutoff : Nat} (hc : 3600 ∣ cutoff)
    (T : Int) (d : Nat) :
    (T, d) ∈ liveKeys db cutoff none ↔ rawBucket db T d ≠ [] ∧ cutoff ≤ d := by
  unfold liveKeys
  constructor
  · intro h
    obtain ⟨r, hr, h1, h2⟩ := mem_keysOf.mp h
    rw [mem_lrows] at hr
    have hd1 : cutoff ≤ d := by
      have := hourBucket_mono hr.2.1.2
      rw [hourBucket_eq_self hc] at this
      omega
    refine ⟨?_, hd1⟩
    intro hnil
    have hmem : r ∈ rawBucket db T d := by
      unfold rawBucket rowsAt rawRows
      rw [List.mem_filter, List.mem_filter]
      exact ⟨⟨hr.1, decide_eq_true hr.2.1.1⟩, decide_eq_true ⟨h1, h2⟩⟩
    rw [hnil] at hmem
    cases hmem
  · rintro ⟨hnil, hd1⟩
    obtain ⟨r, hr⟩ := List.exists_mem_of_ne_nil _ hnil
    unfold rawBucket rowsAt rawRows at hr
    rw [List.mem_filter, List.mem_filter] at hr
    have h1 := of_decide_eq_true hr.1.2
    have h2 := of_decide_eq_true hr.2
    have ht1 : d ≤ r.2.created_at := h2.2 ▸ hourBucket_le _
    apply mem_keysOf.mpr
    refine ⟨r, mem_lrows.mpr ⟨hr.1.1, ⟨h1, by omega⟩, rfl⟩, h2.1, h2.2⟩

lemma liveCount_eq_rawCount (db : DB) {cutoff : Nat} (hc : 3600 ∣ cutoff)
    (T : Int) {d : Nat} (hd : cutoff ≤ d) :
    liveCount db cutoff none T d = rawCount db T d := by
  unfold liveCount rawCount
  rw [rowsAt_lrows_eq_rawBucket db hc T hd]

lemma mem_liveRows_iff (db : DB) (cutoff : Nat) (tids : Option (List Int))
    (hcap : (liveKeys db cutoff tids).length ≤ 500) (r : LiveRow) :
    r ∈ liveRows db cutoff tids none ↔
      ∃ k ∈ liveKeys db cutoff tids, r = mkLiveRow db cutoff tids k.1 k.2 := by
  constructor
  · exact mem_liveRows_elim
  · rintro ⟨k, hk, rfl⟩
    unfold liveRows
    dsimp only
    have hfa : (List.map (fun k => mkLiveRow db cutoff tids k.1 k.2)
          (liveKeys db cutoff tids)).filter
        (fun r => match (none : Option ℚ) with
          | none => true
          | some m => decide (m ≤ r.growth_rate)) =
        List.map (fun k => mkLiveRow db cutoff tids k.1 k.2) (liveKeys db cutoff tids) := by
      apply List.filter_eq_self.mpr
      intro a _
      rfl
    rw [hfa]
    have hlen : (List.insertionSort liveOrder
        (List.map (fun k => mkLiveRow db cutoff tids k.1 k.2)
          (liveKeys db cutoff tids))).length ≤ 500 := by
      rw [(List.perm_insertionSort liveOrder _).length_eq, List.length_map]
      exact hcap
    rw [List.take_of_length_le hlen,
      (List.perm_insertionSort liveOrder _).mem_iff]
    exact List.mem_map.mpr ⟨k, hk, rfl⟩

lemma findRow_of_mem_nodup {S : List EvoRow} {r : EvoRow} (h : r ∈ S)
    (hnd : (S.map evoKey).Nodup) : findRow S r.topic_id r.date r.hour = some r := by
  induction S with
  | nil => cases h
  | cons x xs ih =>
    rw [List.map_cons, List.nodup_cons] at hnd
    rcases List.mem_cons.mp h with rfl | h2
    · rw [findRow_cons, if_pos ⟨rfl, rfl, rfl⟩]
    · rw [findRow_cons, if_neg, ih h2 hnd.2]
      rintro ⟨h1, h2', h3⟩
      exact hnd.1 (List.mem_map.mpr ⟨r, h2, by
        simp [evoKey, h1, h2', h3]⟩)

lemma findRow_some_elim {S : List EvoRow} {T : Int} {d h : Nat} {r : EvoRow}
    (hf : findRow S T d h = some r) :
    r ∈ S ∧ r.topic_id = T ∧ r.date = d ∧ r.hour = h := by
  unfold findRow at hf
  refine ⟨List.mem_of_find?_eq_some hf, ?_⟩
  have := List.find?_some hf
  exact of_decide_eq_true this

lemma S1_invariant (db : DB) {s e : Nat} (hs : 3600 ∣ s) :
    ∀ r ∈ computeRange db [] s e,
      r.hour = hourOfDay r.date ∧ r.topic_id ≠ -1 ∧ s ≤ r.date ∧ r.date < e := by
  apply computeRangeFuel_invariant db
    (fun r => r.hour = hourOfDay r.date ∧ r.topic_id ≠ -1 ∧ s ≤ r.date ∧ r.date < e)
    s e ?_ (rangeFuel s e) [] s e le_rfl le_rfl (by simp)
  intro S s' e' T d hs' he' hk
  obtain ⟨h1, _, h3, h4⟩ := mem_bucketKeys hk
  refine ⟨rfl, h1, ?_, ?_⟩
  · show s ≤ d
    have : hourBucket s ≤ hourBucket s' := hourBucket_mono hs'
    rw [hourBucket_eq_self hs] at this
    omega
  · show d < e
    omega

lemma mem_S1_iff (db : DB) {s e : Nat} (hs : 3600 ∣ s) (he : 3600 ∣ e)
    (T : Int) (d c : Nat) :
    (∃ r ∈ computeRange db [] s e, r.topic_id = T ∧ r.date = d ∧ r.tweet_count = c) ↔
      rawBucket db T d ≠ [] ∧ s ≤ d ∧ d < e ∧ c = rawCount db T d := by
  constructor
  · rintro ⟨r, hr, h1, h2, h3⟩
    have hWF := (S1_invariant db hs r hr).1
    have hfind := findRow_of_mem_nodup hr (keys_nodup_computeRange db [] s e (by simp))
    rw [h1, hWF, h2] at hfind
    have hval := findRow_computeRange_empty_val db hs he T d
    rw [hfind, Option.map_some'] at hval
    by_cases hcond : rawBucket db T d ≠ [] ∧ s ≤ d ∧ d < e
    · rw [if_pos hcond] at hval
      injection hval with hval
      refine ⟨hcond.1, hcond.2.1, hcond.2.2, ?_⟩
      calc c = r.tweet_count := h3.symm
        _ = (dropG r).tweet_count := rfl
        _ = (dropG (rawRow db T d)).tweet_count := by rw [hval]
        _ = (rawRow db T d).tweet_count := rfl
        _ = rawCount db T d := rawRow_tweet_count db T d
    · rw [if_neg hcond] at hval
      cases hval
  · rintro ⟨hraw, h1, h2, h3⟩
    have hval := findRow_computeRange_empty_val db hs he T d
    rw [if_pos ⟨hraw, h1, h2⟩] at hval
    obtain ⟨r, hr, hrd⟩ := Option.map_eq_some'.mp hval
    obtain ⟨hmem, ht, hd, _⟩ := findRow_some_elim hr
    refine ⟨r, hmem, ht, hd, ?_⟩
    calc r.tweet_count = (dropG r).tweet_count := rfl
      _ = (dropG (rawRow db T d)).tweet_count := by rw [hrd]
      _ = rawCount db T d := rawRow_tweet_count db T d
      _ = c := h3.symm

lemma rawBucket_lt_of_all {db : DB} {e : Nat}
    (hall : ∀ r ∈ joined db, r.2.created_at < e) {T : Int} {d : Nat}
    (h : rawBucket db T d ≠ []) : d < e := by
  obtain ⟨r, hr⟩ := List.exists_mem_of_ne_nil _ h
  unfold rawBucket rowsAt rawRows at hr
  rw [List.mem_filter, List.mem_filter] at hr
  have h2 := of_decide_eq_true hr.2
  have := hall r hr.1.1
  have := hourBucket_le r.2.created_at
  omega

lemma trends_live_mem_iff (db : DB) (refined : List RefinedTopic) {hours now : Nat}
    (hc : 3600 ∣ (now - hours * 3600))
    (hcap : (liveKeys db (now - hours * 3600) none).length ≤ 500)
    (T : Int) (d c : Nat) :
    (∃ rec ∈ get_topic_evolution_trends db [] refined none hours none now,
        recGet rec "topic_id" = some (Val.vInt T) ∧
        recGet rec "date" = some (Val.vNat d) ∧
        recGet rec "tweet_count" = some (Val.vNat c)) ↔
      (rawBucket db T d ≠ [] ∧ now - hours * 3600 ≤ d ∧ c = rawCount db T d) := by
  have h0 : get_topic_evolution_trends db [] refined none hours none now =
      (liveRows db (now - hours * 3600) none none).map (liveRecord refined) := rfl
  rw [h0]
  constructor
  · rintro ⟨rec, hrec, hT, hd, hcnt⟩
    obtain ⟨lr, hlr, rfl⟩ := List.mem_map.mp hrec
    obtain ⟨k, hk, rfl⟩ := (mem_liveRows_iff db _ none hcap lr).mp hlr
    have eT : recGet (liveRecord refined (mkLiveRow db (now - hours * 3600) none k.1 k.2))
        "topic_id" = some (Val.vInt k.1) := rfl
    have ed : recGet (liveRecord refined (mkLiveRow db (now - hours * 3600) none k.1 k.2))
        "date" = some (Val.vNat k.2) := rfl
    have ec : recGet (liveRecord refined (mkLiveRow db (now - hours * 3600) none k.1 k.2))
        "tweet_count" = some (Val.vNat (liveCount db (now - hours * 3600) none k.1 k.2)) := rfl
    rw [eT] at hT; rw [ed] at hd; rw [ec] at hcnt
    injection hT with hT; injection hT with hT
    injection hd with hd; injection hd with hd
    injection hcnt with hcnt; injection hcnt with hcnt
    subst hT; subst hd
    have hkk : (k.1, k.2) ∈ liveKeys db (now - hours * 3600) none := by
      rcases k with ⟨a, b⟩; exact hk
    obtain ⟨hne, hcd⟩ := (mem_liveKeys_iff db hc k.1 k.2).mp hkk
    refine ⟨hne, hcd, ?_⟩
    rw [← hcnt, liveCount_eq_rawCount db hc k.1 hcd]
  · rintro ⟨hne, hcd, hcnt⟩
    have hkk : (T, d) ∈ liveKeys db (now - hours * 3600) none :=
      (mem_liveKeys_iff db hc T d).mpr ⟨hne, hcd⟩
    refine ⟨liveRecord refined (mkLiveRow db (now - hours * 3600) none T d), ?_, rfl, rfl, ?_⟩
    · exact List.mem_map.mpr ⟨mkLiveRow db (now - hours * 3600) none T d,
        (mem_liveRows_iff db _ none hcap _).mpr ⟨(T, d), hkk, rfl⟩, rfl⟩
    · have ec : recGet (liveRecord refined (mkLiveRow db (now - hours * 3600) none T d))
          "tweet_count" = some (Val.vNat (liveCount db (now - hours * 3600) none T d)) := rfl
      rw [ec, liveCount_eq_rawCount db hc T hcd, ← hcnt]

lemma trends_persisted_mem_iff (db : DB) (S : List EvoRow) (refined : List RefinedTopic)
    {hours now : Nat} (hS : S.length ≠ 0)
    (hcut : ∀ r ∈ S, now - hours * 3600 ≤ r.date)
    (T : Int) (d c : Nat) :
    (∃ rec ∈ get_topic_evolution_trends db S refined none hours none now,
        recGet rec "topic_id" = some (Val.vInt T) ∧
        recGet rec "date" = some (Val.vNat d) ∧
        recGet rec "tweet_count" = some (Val.vNat c)) ↔
      (∃ r ∈ S, r.topic_id = T ∧ r.date = d ∧ r.tweet_count = c) := by
  unfold get_topic_evolution_trends
  rw [if_neg hS]
  dsimp only
  have hfa : (S.filter fun r =>
      decide (now - hours * 3600 ≤ r.date) &&
      (match normTids none with
       | none => true
       | some l => l.contains r.topic_id) &&
      (match (none : Option ℚ) with
       | none => true
       | some m => decide (m ≤ r.growth_rate))) = S := by
    apply List.filter_eq_self.mpr
    intro a ha
    simp [hcut a ha, normTids]
  rw [hfa]
  constructor
  · rintro ⟨rec, hrec, hT, hd, hcnt⟩
    obtain ⟨r, hr, rfl⟩ := List.mem_map.mp hrec
    rw [(List.perm_insertionSort persistedOrder S).mem_iff] at hr
    have eT : recGet (persistedRecord refined r) "topic_id" = some (Val.vInt r.topic_id) := rfl
    have ed : recGet (persistedRecord refined r) "date" = some (Val.vNat r.date) := rfl
    have ec : recGet (persistedRecord refined r) "tweet_count" =
        some (Val.vNat r.tweet_count) := rfl
    rw [eT] at hT; rw [ed] at hd; rw [ec] at hcnt
    injection hT with hT; injection hT with hT
    injection hd with hd; injection hd with hd
    injection hcnt with hcnt; injection hcnt with hcnt
    exact ⟨r, hr, hT, hd, hcnt⟩
  · rintro ⟨r, hr, hT, hd, hcnt⟩
    refine ⟨persistedRecord refined r, ?_, ?_, ?_, ?_⟩
    · exact List.mem_map.mpr ⟨r,
        (List.perm_insertionSort persistedOrder S).mem_iff.mpr hr, rfl⟩
    · show some (Val.vInt r.topic_id) = some (Val.vInt T); rw [hT]
    · show some (Val.vNat r.date) = some (Val.vNat d); rw [hd]
    · show some (Val.vNat r.tweet_count) = some (Val.vNat c); rw [hcnt]

set_option maxRecDepth 4000 in
/-- C2 (counterexample): on `dbC2` (topic 1, one post in the hour at 0 and two
in the hour at 7200) the live path reports `growth_rate = 1` for the 7200
bucket, because `LAG` reads the last *existing* earlier bucket (here 0, two
hours back); the persisted path reports `growth_rate = 0` for that bucket,
because the batch `previous_hour` join demands a bucket at exactly
`date + 1 hour` and the 3600 bucket is empty.  The two paths therefore do not
return the same set of (topic_id, hour, tweet_count, growth_rate) tuples. -/
theorem dual_path_growth_cex :
    (∃ rec ∈ get_topic_evolution_trends dbC2 [] [] none 3 none 10800,
        recGet rec "date" = some (Val.vNat 7200) ∧
        recGet rec "growth_rate" = some (Val.vRat 1)) ∧
    ¬ (∃ rec ∈ get_topic_evolution_trends dbC2 (computeRange dbC2 [] 0 10800) [] none 3
          none 10800,
        recGet rec "date" = some (Val.vNat 7200) ∧
        recGet rec "growth_rate" = some (Val.vRat 1)) := by
  have h1 : get_topic_evolution_trends dbC2 [] [] none 3 none 10800 =
      [liveRecord [] (mkLiveRow dbC2 0 none 1 7200),
       liveRecord [] (mkLiveRow dbC2 0 none 1 0)] := by
    with_unfolding_all rfl
  have h2 : get_topic_evolution_trends dbC2 (computeRange dbC2 [] 0 10800) [] none 3
        none 10800 =
      [persistedRecord [] (mkRow dbC2 [] 0 10800 1 7200),
       persistedRecord [] (mkRow dbC2 [] 0 10800 1 0)] := by
    with_unfolding_all rfl
  constructor
  · refine ⟨liveRecord [] (mkLiveRow dbC2 0 none 1 7200), ?_, rfl, ?_⟩
    · rw [h1]; exact List.mem_cons_self _ _
    · have e : recGet (liveRecord [] (mkLiveRow dbC2 0 none 1 7200)) "growth_rate" =
          some (Val.vRat (liveGrowth dbC2 0 none 1 7200)) := rfl
      rw [e]
      have : liveGrowth dbC2 0 none 1 7200 = 1 := by with_unfolding_all decide
      rw [this]
  · rw [h2]
    rintro ⟨rec, hrec, hd, hg⟩
    rcases List.mem_cons.mp hrec with rfl | hrec2
    · have e : recGet (persistedRecord [] (mkRow dbC2 [] 0 10800 1 7200)) "growth_rate" =
          some (Val.vRat (growthRateBatch [] 0 10800 1 7200
            (tweetCount dbC2 0 10800 1 7200))) := rfl
      rw [e] at hg
      injection hg with hg; injection hg with hg
      have h0 : growthRateBatch [] 0 10800 1 7200 (tweetCount dbC2 0 10800 1 7200) = 0 := rfl
      rw [h0] at hg
      exact zero_ne_one hg
    · rcases List.mem_cons.mp hrec2 with rfl | hrec3
      · have e : recGet (persistedRecord [] (mkRow dbC2 [] 0 10800 1 0)) "date" =
            some (Val.vNat 0) := rfl
        rw [e] at hd
        injection hd with hd; injection hd with hd
        exact absurd hd (by decide)
      · cases hrec3

/-- C2 (amended): dual-path equivalence holds for the counting fields but not
for `growth_rate`.  For a window `[s, e)` aligned to hour boundaries with
`s = now - hours * 3600`, raw data confined to `[0, e)`, and at most 500 live
groups, `evolution_trends` against the empty store and against the store
persisted by `compute_range` over that window return the same set of
(topic_id, date, tweet_count) tuples; `growth_rate` can differ between the two
paths, as the counterexample shows. -/
theorem dual_path_count_equivalence (db : DB) (refined : List RefinedTopic)
    (hours now s e : Nat)
    (hse : s = now - hours * 3600) (hs : 3600 ∣ s) (he : 3600 ∣ e)
    (hall : ∀ r ∈ joined db, r.2.created_at < e)
    (hcap : (liveKeys db s none).length ≤ 500)
    (T : Int) (d c : Nat) :
    (∃ rec ∈ get_topic_evolution_trends db [] refined none hours none now,
        recGet rec "topic_id" = some (Val.vInt T) ∧
        recGet rec "date" = some (Val.vNat d) ∧
        recGet rec "tweet_count" = some (Val.vNat c)) ↔
    (∃ rec ∈ get_topic_evolution_trends db (computeRange db [] s e) refined none hours
        none now,
        recGet rec "topic_id" = some (Val.vInt T) ∧
        recGet rec "date" = some (Val.vNat d) ∧
        recGet rec "tweet_count" = some (Val.vNat c)) := by
  subst hse
  by_cases h0 : (computeRange db [] (now - hours * 3600) e).length = 0
  · have hA : get_topic_evolution_trends db (computeRange db [] (now - hours * 3600) e)
        refined none hours none now =
        computeEvolutionMetrics db refined none (now - hours * 3600) none := by
      unfold get_topic_evolution_trends
      rw [if_pos h0]
    have hB : get_topic_evolution_trends db [] refined none hours none now =
        computeEvolutionMetrics db refined none (now - hours * 3600) none := rfl
    rw [hA, hB]
  · have hcut : ∀ r ∈ computeRange db [] (now - hours * 3600) e,
        now - hours * 3600 ≤ r.date :=
      fun r hr => (S1_invariant db hs r hr).2.2.1
    rw [trends_live_mem_iff db refined hs hcap T d c,
      trends_persisted_mem_iff db _ refined h0 hcut T d c,
      mem_S1_iff db hs he T d c]
    constructor
    · rintro ⟨h1, h2, h3⟩
      exact ⟨h1, h2, rawBucket_lt_of_all hall h1, h3⟩
    · rintro ⟨h1, h2, _, h3⟩
      exact ⟨h1, h2, h3⟩

/-- C2 (witness): the amended equivalence instantiated on `dbC2` over the
window `[0, 10800)` at the tuple (topic 1, bucket 7200, count 2). -/
theorem dual_path_count_equivalence_witness :
    (∃ rec ∈ get_topic_evolution_trends dbC2 [] [] none 3 none 10800,
        recGet rec "topic_id" = some (Val.vInt 1) ∧
        recGet rec "date" = some (Val.vNat 7200) ∧
        recGet rec "tweet_count" = some (Val.vNat 2)) ↔
    (∃ rec ∈ get_topic_evolution_trends dbC2 (computeRange dbC2 [] 0 10800) [] none 3
        none 10800,
        recGet rec "topic_id" = some (Val.vInt 1) ∧
        recGet rec "date" = some (Val.vNat 7200) ∧
        recGet rec "tweet_count" = some (Val.vNat 2)) :=
  dual_path_count_equivalence dbC2 [] 3 10800 0 10800 (by decide) (by decide) (by decide)
    (by with_unfolding_all decide) (by with_unfolding_all decide) 1 7200 2

lemma find_pred_congr {α : Type} {p q : α → Bool} :
    ∀ l : List α, (∀ a ∈ l, p a = q a) → l.find? p = l.find? q := by
  intro l h
  induction l with
  | nil => rfl
  | cons x xs ih =>
    rw [List.find?_cons, List.find?_cons, h x (List.mem_cons_self _ _)]
    cases hq : q x
    · exact ih fun a ha => h a (List.mem_cons_of_mem _ ha)
    · rfl

lemma prevCount_eq_findRow (S : List EvoRow)
    (hWF : ∀ r ∈ S, r.hour = hourOfDay r.date) {cur be : Nat} (T : Int) {d : Nat}
    (h36 : 3600 ≤ d) (hcur : cur ≤ d) (hdb : d < be) :
    prevCount S cur be T d =
      (findRow S T (d - 3600) (hourOfDay (d - 3600))).map fun r => r.tweet_count := by
  unfold prevCount findRow
  congr 1
  apply find_pred_congr
  intro r hr
  have hw := hWF r hr
  rw [decide_eq_decide]
  constructor
  · rintro ⟨h1, h2, _, _⟩
    refine ⟨h1, by omega, ?_⟩
    rw [hw, show r.date = d - 3600 from by omega]
  · rintro ⟨h1, h2, _⟩
    exact ⟨h1, by omega, by omega, by omega⟩

lemma growth_run2_fuel (db : DB) {s e : Nat} (hs : 3600 ∣ s) (he : 3600 ∣ e) :
    ∀ f S cur, 3600 ∣ cur → s ≤ cur → rangeFuel cur e ≤ f →
      (∀ r ∈ S, r.hour = hourOfDay r.date) →
      (∀ (T : Int) (d : Nat), (findRow S T d (hourOfDay d)).map dropG =
        if rawBucket db T d ≠ [] ∧ s ≤ d ∧ d < e
        then some (dropG (rawRow db T d)) else none) →
      ∀ (T : Int) (d : Nat), rawBucket db T d ≠ [] → cur ≤ d → d < e →
      (findRow (computeRangeFuel db f S cur e) T d (hourOfDay d)).map
        (fun r => r.growth_rate) = some (specGrowth db s T d) := by
  intro f
  induction f with
  | zero =>
    intro S cur _ _ hf _ _ T d _ hd1 hd2
    exfalso
    unfold rangeFuel at hf
    omega
  | succ f ih =>
    intro S cur hcur hscur hf hWF hCA T d hraw hd1 hd2
    have hc : cur < e := by omega
    have hbe : 3600 ∣ min (cur + 86400) e := dvd_min (by omega) he
    have hfuel : rangeFuel (min (cur + 86400) e) e ≤ f := by
      unfold rangeFuel at *
      omega
    rw [computeRangeFuel, if_pos hc]
    by_cases hdb : d < min (cur + 86400) e
    · have hddvd : 3600 ∣ d := rawBucket_dvd_of_ne_nil hraw
      have hd3600 : d + 3600 ≤ min (cur + 86400) e := dvd_add_le hddvd hbe hdb
      rw [findRow_computeRangeFuel_of_not_emitted db f _ _ _ T d (hourOfDay d) hfuel
        (fun hmem => by
          have := (mem_emittedKeys_iff db f _ e hbe he hfuel T d (hourOfDay d)).mp hmem
          omega)]
      have hk : (T, d) ∈ bucketKeys db cur (min (cur + 86400) e) :=
        (mem_bucketKeys_iff db hcur hbe T d).mpr ⟨hraw, hd1, hdb⟩
      have hfind : findRow (upsertAll S (computeBatch db S cur (min (cur + 86400) e)))
          T d (hourOfDay d) = some (mkRow db S cur (min (cur + 86400) e) T d) :=
        findRow_upsertAll_of_mem S _ _ (List.mem_map.mpr ⟨(T, d), hk, rfl⟩)
          (computeBatch_keys_nodup db S _ _)
      rw [hfind, Option.map_some']
      congr 1
      show growthRateBatch S cur (min (cur + 86400) e) T d
          (tweetCount db cur (min (cur + 86400) e) T d) = specGrowth db s T d
      have hcnt : tweetCount db cur (min (cur + 86400) e) T d = rawCount db T d := by
        unfold tweetCount rawCount
        rw [bucketRows_eq_rawBucket db T hd1 hd3600]
      by_cases h36 : 3600 ≤ d
      · unfold growthRateBatch
        rw [prevCount_eq_findRow S hWF T h36 hd1 hdb]
        have hca := hCA T (d - 3600)
        by_cases hcond : rawBucket db T (d - 3600) ≠ [] ∧ s ≤ d - 3600 ∧ d - 3600 < e
        · rw [if_pos hcond] at hca
          obtain ⟨r, hr, hrd⟩ := Option.map_eq_some'.mp hca
          rw [hr, Option.map_some']
          have hcnt2 : r.tweet_count = rawCount db T (d - 3600) := by
            calc r.tweet_count = (dropG r).tweet_count := rfl
              _ = (dropG (rawRow db T (d - 3600))).tweet_count := by rw [hrd]
              _ = rawCount db T (d - 3600) := rawRow_tweet_count db T (d - 3600)
          rw [hcnt2, hcnt]
          unfold specGrowth
          rw [if_pos ⟨h36, hcond.2.1, hcond.1⟩]
        · rw [if_neg hcond] at hca
          have hnone : findRow S T (d - 3600) (hourOfDay (d - 3600)) = none := by
            cases hF : findRow S T (d - 3600) (hourOfDay (d - 3600)) with
            | none => rfl
            | some r => rw [hF, Option.map_some'] at hca; cases hca
          rw [hnone, Option.map_none']
          unfold specGrowth
          have hnc : ¬(3600 ≤ d ∧ s ≤ d - 3600 ∧ rawBucket db T (d - 3600) ≠ []) := by
            rintro ⟨hh1, hh2, hh3⟩
            exact hcond ⟨hh3, hh2, by omega⟩
          rw [if_neg hnc]
      · have hnone : prevCount S cur (min (cur + 86400) e) T d = none := by
          unfold prevCount
          rw [List.find?_eq_none.mpr ?_]
          · rfl
          · intro r _ hp
            have := of_decide_eq_true hp
            omega
        unfold growthRateBatch
        rw [hnone]
        unfold specGrowth
        rw [if_neg (by rintro ⟨hh1, _, _⟩; omega)]
    · have hWF2 : ∀ r ∈ upsertAll S (computeBatch db S cur (min (cur + 86400) e)),
          r.hour = hourOfDay r.date := by
        intro r hr
        rcases mem_upsertAll hr with h | h
        · exact hWF r h
        · obtain ⟨k, _, rfl⟩ := mem_computeBatch h
          rfl
      have hCA2 : ∀ (T' : Int) (d' : Nat),
          (findRow (upsertAll S (computeBatch db S cur (min (cur + 86400) e)))
            T' d' (hourOfDay d')).map dropG =
          if rawBucket db T' d' ≠ [] ∧ s ≤ d' ∧ d' < e
          then some (dropG (rawRow db T' d')) else none := by
        intro T' d'
        by_cases hk : (T', d') ∈ bucketKeys db cur (min (cur + 86400) e)
        · have hfind : findRow (upsertAll S (computeBatch db S cur (min (cur + 86400) e)))
              T' d' (hourOfDay d') = some (mkRow db S cur (min (cur + 86400) e) T' d') :=
            findRow_upsertAll_of_mem S _ _ (List.mem_map.mpr ⟨(T', d'), hk, rfl⟩)
              (computeBatch_keys_nodup db S _ _)
          rw [hfind, Option.map_some']
          obtain ⟨hraw', hcd1, hcd2⟩ := (mem_bucketKeys_iff db hcur hbe T' d').mp hk
          have hdvd' : 3600 ∣ d' := rawBucket_dvd_of_ne_nil hraw'
          rw [if_pos ⟨hraw', by omega, by omega⟩]
          exact congrArg some (dropG_mkRow_window db S T' hcd1 (dvd_add_le hdvd' hbe hcd2))
        · rw [findRow_upsertAll_of_not_mem S _ T' d' (hourOfDay d') ?_]
          · exact hCA T' d'
          · intro r hr hkey
            obtain ⟨k, hkm, rfl⟩ := mem_computeBatch hr
            apply hk
            rcases k with ⟨a, b⟩
            have h1 : a = T' := hkey.1
            have h2 : b = d' := hkey.2.1
            rw [← h1, ← h2]
            exact hkm
      exact ih _ _ hbe (by omega) hfuel hWF2 hCA2 T d hraw (by omega) hd2

lemma mem_liveDates {db : DB} {c : Nat} {tids : Option (List Int)} {T : Int} {d' : Nat} :
    d' ∈ liveDates db c tids T ↔ (T, d') ∈ liveKeys db c tids := by
  unfold liveDates
  constructor
  · intro h
    obtain ⟨k, hk, rfl⟩ := List.mem_map.mp h
    rw [List.mem_filter] at hk
    have hT : k.1 = T := by simpa using hk.2
    rcases k with ⟨a, b⟩
    cases hT
    exact hk.1
  · intro h
    exact List.mem_map.mpr ⟨(T, d'), List.mem_filter.mpr ⟨h, by simp⟩, rfl⟩

lemma lagPrev_adjacent (db : DB) {c : Nat} (hc : 3600 ∣ c) (T : Int) {d : Nat}
    (h36 : 3600 ≤ d) (hcd : c ≤ d - 3600) (hraw : rawBucket db T (d - 3600) ≠ []) :
    lagPrev db c none T d = some (rawCount db T (d - 3600)) := by
  have hddvd : 3600 ∣ (d - 3600) := rawBucket_dvd_of_ne_nil hraw
  have hmax : ((liveDates db c none T).filter fun d' => decide (d' < d)).max? =
      some (d - 3600) := by
    rw [List.max?_eq_some_iff']
    constructor
    · rw [List.mem_filter]
      refine ⟨mem_liveDates.mpr ((mem_liveKeys_iff db hc T (d - 3600)).mpr ⟨hraw, hcd⟩), ?_⟩
      exact decide_eq_true (by omega)
    · intro b hb
      rw [List.mem_filter] at hb
      have hlt : b < d := of_decide_eq_true hb.2
      have hbk := (mem_liveKeys_iff db hc T b).mp (mem_liveDates.mp hb.1)
      have hbdvd : 3600 ∣ b := rawBucket_dvd_of_ne_nil hbk.1
      omega
  unfold lagPrev
  rw [hmax]
  show some (liveCount db c none T (d - 3600)) = some (rawCount db T (d - 3600))
  rw [liveCount_eq_rawCount db hc T (by omega)]

set_option maxRecDepth 4000 in
/-- C3 (counterexample): on `dbC3` (topic 1, 10 posts in the hour at 3600 and
15 in the hour at 7200) the spec demands `growth_rate = 0.5` for the second
bucket, but a first run of `compute_range` over `[0, 10800)` persists
`growth_rate = 0` there: the `previous_hour` CTE reads the persisted
`topic_evolution` table, which is empty throughout a fresh single-day run. -/
theorem growth_rate_first_run_cex :
    rawCount dbC3 1 3600 = 10 ∧ rawCount dbC3 1 7200 = 15 ∧
    (findRow (computeRange dbC3 [] 0 10800) 1 7200 (hourOfDay 7200)).map
      (fun r => r.growth_rate) = some 0 ∧ (0 : ℚ) ≠ 1 / 2 := by
  refine ⟨?_, ?_, ?_, by norm_num⟩
  · with_unfolding_all decide
  · with_unfolding_all decide
  · with_unfolding_all decide

/-- C3 (amended): the growth CASE never divides by zero, but the previous
count is not read from the raw data of the preceding hour.  (1) Batch path:
on a re-run over an already persisted window `[s, e)` (hour-aligned), every
nonempty bucket's stored `growth_rate` equals the spec formula `specGrowth`:
`(count(d) - count(d - 3600)) / count(d - 3600)` when the preceding hour
bucket is nonempty, lies in the window and has positive count, else 0 —
so the spec's 10/15 example holds only from the second run on.  (2) Live
path: `LAG` reads the latest *existing* earlier bucket; whenever the
immediately preceding hour bucket is nonempty and past the cutoff, that is
the bucket read, and the growth CASE then yields the spec formula. -/
theorem growth_rate_semantics (db : DB) (s e : Nat) (hs : 3600 ∣ s) (he : 3600 ∣ e) :
    (∀ (T : Int) (d : Nat), rawBucket db T d ≠ [] → s ≤ d → d < e →
      (findRow (computeRange db (computeRange db [] s e) s e) T d (hourOfDay d)).map
        (fun r => r.growth_rate) = some (specGrowth db s T d)) ∧
    (∀ (T : Int) (d : Nat), 3600 ≤ d → s ≤ d - 3600 → rawBucket db T (d - 3600) ≠ [] →
      lagPrev db s none T d = some (rawCount db T (d - 3600)) ∧
      liveGrowth db s none T d =
        if 0 < rawCount db T (d - 3600) then
          ((liveCount db s none T d : ℚ) - (rawCount db T (d - 3600) : ℚ)) /
            (rawCount db T (d - 3600) : ℚ)
        else 0) := by
  constructor
  · intro T d hraw hd1 hd2
    have hWF : ∀ r ∈ computeRange db [] s e, r.hour = hourOfDay r.date :=
      fun r hr => (S1_invariant db hs r hr).1
    have hCA : ∀ (T' : Int) (d' : Nat),
        (findRow (computeRange db [] s e) T' d' (hourOfDay d')).map dropG =
        if rawBucket db T' d' ≠ [] ∧ s ≤ d' ∧ d' < e
        then some (dropG (rawRow db T' d')) else none :=
      fun T' d' => findRow_computeRange_empty_val db hs he T' d'
    exact growth_run2_fuel db hs he (rangeFuel s e) (computeRange db [] s e) s hs
      le_rfl le_rfl hWF hCA T d hraw hd1 hd2
  · intro T d h36 hcd hraw
    have hlag := lagPrev_adjacent db hs T h36 hcd hraw
    refine ⟨hlag, ?_⟩
    unfold liveGrowth
    rw [hlag]

set_option maxRecDepth 4000 in
/-- C3 (witness): on `dbC3` (10 posts in the hour at 3600, 15 in the hour at
7200) the second persisted run stores `growth_rate = 1/2` for the 7200 bucket,
and the live path's `LAG` reads the 3600 bucket (count 10) giving `1/2` too. -/
theorem growth_rate_semantics_witness :
    rawCount dbC3 1 3600 = 10 ∧ rawCount dbC3 1 7200 = 15 ∧
    (findRow (computeRange dbC3 (computeRange dbC3 [] 0 10800) 0 10800) 1 7200
        (hourOfDay 7200)).map (fun r => r.growth_rate) = some (1 / 2 : ℚ) ∧
    lagPrev dbC3 0 none 1 7200 = some 10 ∧
    liveGrowth dbC3 0 none 1 7200 = 1 / 2 := by
  refine ⟨by with_unfolding_all decide, by with_unfolding_all decide, ?_, ?_, ?_⟩
  · have h := (growth_rate_semantics dbC3 0 10800 (by decide) (by decide)).1 1 7200
      (by with_unfolding_all decide) (by decide) (by decide)
    rwa [show specGrowth dbC3 0 1 7200 = 1 / 2 from by with_unfolding_all decide] at h
  · have h := ((growth_rate_semantics dbC3 0 10800 (by decide) (by decide)).2 1 7200
      (by decide) (by decide) (by with_unfolding_all decide)).1
    rwa [show rawCount dbC3 1 (7200 - 3600) = 10 from by with_unfolding_all decide] at h
  · have h := ((growth_rate_semantics dbC3 0 10800 (by decide) (by decide)).2 1 7200
      (by decide) (by decide) (by with_unfolding_all decide)).2
    rw [h, if_pos (by with_unfolding_all decide)]
    with_unfolding_all decide
